import Mathlib

/-!
Shallow embedding of the genprotimg PV image builder from s390-tools.

The definitions below are translated from the C sources:
  * `src/genprotimg/src/utils/align.h`      — alignment macros
  * `src/genprotimg/src/utils/buffer.c`     — byte buffers
  * `src/genprotimg/src/utils/file_utils.c` — padded/streamed file writes
  * `src/genprotimg/src/utils/crypto.c`     — exchange-key KDF, XTS BIO loop
  * `src/genprotimg/src/pv/pv_comp.c`       — components and measurements
  * `src/genprotimg/src/pv/pv_comps.c`      — component collection
  * `src/genprotimg/src/pv/pv_hdr.c`        — secure header build/serialise
  * `src/genprotimg/src/pv/pv_image.c`      — image assembly, key slots, PSW
  * `src/genprotimg/src/common.h`, `src/genprotimg/src/include/pv_hdr_def.h`

Machine integers are modelled as `Nat` with explicit `% 2^64` where 64-bit
overflow matters.  Byte strings are `List Nat` (each entry one byte).
External OpenSSL primitives (SHA-256, ECDH, AES-GCM, AES-XTS) are taken as
parameters of the development; everything proved is independent of their
concrete realisation and depends only on properties the C code itself
asserts (output lengths).
-/

set_option maxRecDepth 2000

namespace Genprotimg

/-- 2^64, the modulus of C `uint64_t` / `unsigned long` arithmetic. -/
def U64 : Nat := 2 ^ 64

/-- `Modelled from the spec:` `PAGE_SIZE` comes from `boot/s390.h`, which is
not part of the given sources; the spec fixes 4096-byte pages throughout. -/
def PAGE_SIZE : Nat := 4096

/-- `PSW_SHORT_ADDR_MASK` from common.h. -/
def PSW_SHORT_ADDR_MASK : Nat := 0x000000007FFFFFFF

/-- `PSW_MASK_BA` from common.h. -/
def PSW_MASK_BA : Nat := 0x0000000080000000

/-- `PSW_MASK_EA` from common.h. -/
def PSW_MASK_EA : Nat := 0x0000000100000000

/-- `PSW_MASK_BIT_12` from common.h. -/
def PSW_MASK_BIT_12 : Nat := 0x0008000000000000

/-- `DEFAULT_INITIAL_PSW_MASK` from common.h. -/
def DEFAULT_INITIAL_PSW_MASK : Nat := PSW_MASK_EA ||| PSW_MASK_BA

/-- `PV_MAGIC_VALUE` from pv_hdr_def.h. -/
def PV_MAGIC_VALUE : Nat := 0x49424d5365634578

/-- `PV_VERSION_1` from pv_hdr_def.h. -/
def PV_VERSION_1 : Nat := 0x00000100

/-- `PV_CONTROL_FLAG_NO_DECRYPTION` from pv_hdr_def.h. -/
def PV_CONTROL_FLAG_NO_DECRYPTION : Nat := 0x10000000

/-- `ALIGN(addr, PAGE_SIZE)` from align.h on a 64-bit `unsigned long`:
`(addr + size - 1) & ~(size - 1)`; the 64-bit complement of `PAGE_SIZE - 1`
is `2^64 - PAGE_SIZE`. -/
def PAGE_ALIGN (addr : Nat) : Nat :=
  ((addr % U64 + (PAGE_SIZE - 1)) % U64) &&& (U64 - PAGE_SIZE)

/-- `IS_ALIGNED(addr, PAGE_SIZE)` from align.h: `!(addr & (size - 1))` on a
64-bit `unsigned long`. -/
def IS_PAGE_ALIGNED (addr : Nat) : Bool :=
  (addr % U64) &&& (PAGE_SIZE - 1) == 0

/-- Big-endian byte serialisation of `n` into `w` bytes (the wire format of
`GUINT16/32/64_TO_BE` followed by a `memcpy`). -/
def beBytes : Nat → Nat → List Nat
  | 0, _ => []
  | w + 1, n => beBytes w (n / 256) ++ [n % 256]

def be16 (n : Nat) : List Nat := beBytes 2 n

def be32 (n : Nat) : List Nat := beBytes 4 n

def be64 (n : Nat) : List Nat := beBytes 8 n

/-- `LONG_MAX` on the 64-bit target (bound checked by `file_seek`). -/
def LONG_MAX : Nat := 2 ^ 63 - 1

/-- Error kinds raised by the embedded functions (pv_error.h collapses to a
domain/kind pair; only the kinds relevant to the claims are distinguished). -/
inductive PvError where
  | finalized      -- PV_COMPONENT_ERROR_FINALIZED
  | offsetChange   -- PV_IMAGE_ERROR_OFFSET
  | internal       -- PV_ERROR_INTERNAL
  | fileChanged    -- "File has changed during the preparation"
  | assertion      -- a g_assert / g_assert_true abort
  | offsetTooLarge -- file_seek: "Offset is too large"
deriving DecidableEq

/-! ### Component model (pv_comp.c)

`PvComponent` and its `union tweak` are declared in `pv_comp.h`, which is not
among the given sources; the fields below are exactly those used by
`pv_comp.c` / `pv_comps.c` (`type`, `d_type`+`data`, `orig_size`, `tweak`,
`src_addr`).  A file-backed component records a path and the prepared size;
the surrounding filesystem is modelled as a map `fs : String → List Nat`
from paths to byte contents.  The 16-byte tweak is carried as the natural
number that `BN_bin2bn` reads from its big-endian bytes. -/

/-- `Modelled from the spec:` the numeric role-tag values live in `pv_comp.h`
(not among the given sources); the spec fixes the order
kernel < initrd < cmdline < stage3b. -/
def PV_COMP_TYPE_KERNEL : Nat := 0

def PV_COMP_TYPE_INITRD : Nat := 1

def PV_COMP_TYPE_CMDLINE : Nat := 2

def PV_COMP_TYPE_STAGE3B : Nat := 3

inductive PvComponentData where
  | buffer (buf : List Nat)
  | file (path : String) (size : Nat)
deriving DecidableEq

structure PvComponent where
  type : Nat
  data : PvComponentData
  orig_size : Nat
  tweak : Nat
  src_addr : Nat
deriving DecidableEq

/-- `pv_component_size` from pv_comp.c. -/
def pv_component_size (c : PvComponent) : Nat :=
  match c.data with
  | .buffer buf => buf.length
  | .file _ size => size

/-- `pv_component_get_src_addr` from pv_comp.c. -/
def pv_component_get_src_addr (c : PvComponent) : Nat := c.src_addr

/-- `pv_component_get_orig_size` from pv_comp.c. -/
def pv_component_get_orig_size (c : PvComponent) : Nat := c.orig_size

/-- `pv_component_is_stage3b` from pv_comp.c. -/
def pv_component_is_stage3b (c : PvComponent) : Bool :=
  c.type == PV_COMP_TYPE_STAGE3B

/-- Page count `max(ceil(size / PAGE_SIZE), 1)`: the value the claims give
for the number of measured pages of a component. -/
def pageCount (size : Nat) : Nat :=
  max ((size + (PAGE_SIZE - 1)) / PAGE_SIZE) 1

/-! ### Measurement routines (pv_comp.c)

Each routine returns the bytes it feeds into its digest context together
with the page count it returns (the C `int64_t nep`).  The address loop of
`pv_component_update_ald` steps a `uint64_t` cursor; the embedding keeps the
cursor as a `Nat` (the builder never lets `addr + size` reach `2^64`, see
the collection invariant), and each absorbed address is reduced `% 2^64` as
`GUINT64_TO_BE` does. -/

/-- The do-while loop of `pv_component_update_ald`: absorb the big-endian
address of each page from `cur` up to `stop` (at least one page). -/
def aldGo (cur stop : Nat) : List Nat × Nat :=
  let absorbed := be64 (cur % U64)
  if h : cur + PAGE_SIZE < stop then
    let r := aldGo (cur + PAGE_SIZE) stop
    (absorbed ++ r.1, r.2 + 1)
  else
    (absorbed, 1)
termination_by stop - cur
decreasing_by
  simp only [PAGE_SIZE] at *
  omega

/-- `pv_component_update_ald` from pv_comp.c. -/
def pv_component_update_ald (c : PvComponent) : List Nat × Nat :=
  aldGo (pv_component_get_src_addr c)
    (pv_component_get_src_addr c + pv_component_size c)

/-- The for loop of `pv_component_update_tld`: absorb the 16-byte big-endian
tweak for each page, advancing the tweak by `PAGE_SIZE` (`BN_add_word`).
`BN_bn2binpad` truncation is reflected by `% 2^128`. -/
def tldGo (tweak cur size : Nat) : List Nat × Nat :=
  if cur < size ∨ cur = 0 then
    let absorbed := beBytes 16 (tweak % 2 ^ 128)
    let r := tldGo (tweak + PAGE_SIZE) (cur + PAGE_SIZE) size
    (absorbed ++ r.1, r.2 + 1)
  else
    ([], 0)
termination_by size + PAGE_SIZE - cur
decreasing_by
  simp only [PAGE_SIZE] at *
  omega

/-- `pv_component_update_tld` from pv_comp.c. -/
def pv_component_update_tld (c : PvComponent) : List Nat × Nat :=
  tldGo c.tweak 0 (pv_component_size c)

/-- The buffer case of `pv_component_update_pld`: absorb the whole-page
prefix, then one zero-padded page for a non-zero remainder; an empty buffer
still counts one page. -/
def pldBuf (buf : List Nat) : List Nat × Nat :=
  let quot := buf.length / PAGE_SIZE
  let remaind := buf.length % PAGE_SIZE
  let nep := if quot ≠ 0 then quot else 1
  let absorbed := buf.take (quot * PAGE_SIZE)
  if remaind ≠ 0 then
    (absorbed ++ (buf.drop (quot * PAGE_SIZE) ++
      List.replicate (PAGE_SIZE - remaind) 0), nep + 1)
  else
    (absorbed, nep)

/-- The file case of `pv_component_update_pld`: read the file page-wise
(each read buffer zero-initialised), absorbing a full page per iteration,
until `size` bytes were consumed or the file is exhausted; error out when
the file did not hold exactly `size` bytes. -/
def pldFileGo (content : List Nat) (size total nep : Nat) :
    Except PvError (List Nat × Nat) :=
  let chunk := content.take PAGE_SIZE
  let read := chunk.length
  let absorbed := chunk ++ List.replicate (PAGE_SIZE - read) 0
  if h : total + read < size ∧ read ≠ 0 then
    match pldFileGo (content.drop PAGE_SIZE) size (total + read) (nep + 1) with
    | .ok r => .ok (absorbed ++ r.1, r.2)
    | .error e => .error e
  else
    if total + read = size then .ok (absorbed, nep + 1)
    else .error .fileChanged
termination_by content.length
decreasing_by
  have h2 : (content.take PAGE_SIZE).length ≠ 0 := h.2
  rw [List.length_take] at h2
  rw [List.length_drop]
  omega

/-- `pv_component_update_pld` from pv_comp.c (parameterised by the
filesystem contents `fs`). -/
def pv_component_update_pld (fs : String → List Nat) (c : PvComponent) :
    Except PvError (List Nat × Nat) :=
  match c.data with
  | .buffer buf => .ok (pldBuf buf)
  | .file path _ => pldFileGo (fs path) (pv_component_size c) 0 0

/-! ### Component collection (pv_comps.c)

`struct _pv_img_comps` holds the `finalized` flag, the `next_src` cursor,
the running `nep`, three digest contexts and the component list.  A digest
context is modelled by the byte stream absorbed so far; `digest_ctx_finalize`
applies the configured hash (SHA-512 for all three, see `pv_img_new`). -/

structure PvImgComps where
  finalized : Bool
  next_src : Nat
  nep : Nat
  pld : List Nat
  ald : List Nat
  tld : List Nat
  comps : List PvComponent
deriving DecidableEq

/-- `pv_img_comps_new` from pv_comps.c (fresh digest contexts, zeroed
state). -/
def pv_img_comps_new : PvImgComps :=
  { finalized := false, next_src := 0, nep := 0, pld := [], ald := [], tld := [],
    comps := [] }

/-- `pv_img_comps_length` from pv_comps.c. -/
def pv_img_comps_length (s : PvImgComps) : Nat := s.comps.length

/-- `pv_img_comps_add_component` from pv_comps.c.  Returns the collection
and the component as left by the call (the C mutates `comp->src_addr` only
after the `finalized` check has passed) together with the error, if any.
`next_src` is a `uint64_t`, hence the `% 2^64`. -/
def pv_img_comps_add_component (s : PvImgComps) (comp : PvComponent) :
    PvImgComps × PvComponent × Option PvError :=
  if s.finalized then (s, comp, some .finalized)
  else
    ({ s with
        comps := s.comps ++ [{ comp with src_addr := s.next_src }],
        next_src := (s.next_src +
          (if pv_component_size comp ≠ 0 then PAGE_ALIGN (pv_component_size comp)
           else PAGE_SIZE)) % U64 },
      { comp with src_addr := s.next_src }, none)

/-- `pv_img_comps_set_offset` from pv_comps.c. -/
def pv_img_comps_set_offset (s : PvImgComps) (offset : Nat) :
    PvImgComps × Option PvError :=
  if 0 < pv_img_comps_length s then (s, some .offsetChange)
  else ({ s with next_src := (s.next_src + offset) % U64 }, none)

/-- `pv_img_comps_hash_comp` from pv_comps.c: run the three measurement
routines, assert that they return the same page count
(`g_assert(nep_1 == nep_2)`, `g_assert(nep_2 == nep_3)`), and accumulate
`nep` with `g_uint64_checked_add` (abort on `uint64_t` overflow). -/
def pv_img_comps_hash_comp (fs : String → List Nat) (s : PvImgComps)
    (comp : PvComponent) : Except PvError PvImgComps :=
  match pv_component_update_pld fs comp with
  | .error e => .error e
  | .ok r1 =>
    if (pv_component_update_ald comp).2 = r1.2 ∧
        (pv_component_update_tld comp).2 = r1.2 ∧
        s.nep + r1.2 < U64 then
      .ok { s with
        pld := s.pld ++ r1.1,
        ald := s.ald ++ (pv_component_update_ald comp).1,
        tld := s.tld ++ (pv_component_update_tld comp).1,
        nep := s.nep + r1.2 }
    else .error .assertion

/-- The iteration of `pv_img_comps_finalize` over the component list. -/
def hashCompsFold (fs : String → List Nat) :
    PvImgComps → List PvComponent → Except PvError PvImgComps
  | s, [] => .ok s
  | s, c :: cs =>
    match pv_img_comps_hash_comp fs s c with
    | .error e => .error e
    | .ok s' => hashCompsFold fs s' cs

/-- `pv_img_comps_finalize` from pv_comps.c: set the `finalized` flag, hash
every component in order, and return the three finalised digests and the
accumulated page count (the contexts finalise through SHA-512). -/
def pv_img_comps_finalize (sha512 : List Nat → List Nat)
    (fs : String → List Nat) (s : PvImgComps) :
    Except PvError (PvImgComps × List Nat × List Nat × List Nat × Nat) :=
  match hashCompsFold fs { s with finalized := true } s.comps with
  | .error e => .error e
  | .ok s' => .ok (s', sha512 s'.pld, sha512 s'.ald, sha512 s'.tld, s'.nep)

/-- Reachable states of the component collection under its public
operations.  The numeric side conditions record that the 64-bit arithmetic
does not wrap: component sizes are below `2^63` (`file_size` rejects a
negative `st_size`, so a file size fits a signed `off_t`; buffer-backed
components live in memory), the offset is page-aligned
(`pv_img_comps_set_offset` has `g_assert(IS_PAGE_ALIGNED(offset))` and its
only caller passes a `PAGE_ALIGN`ed value), and the cursor stays below
`2^64` (the builder adds at most four components). -/
inductive Reach : PvImgComps → Prop where
  | init : Reach pv_img_comps_new
  | add {s c s' c'} : Reach s →
      pv_component_size c + (PAGE_SIZE - 1) < U64 →
      s.next_src +
        (if pv_component_size c ≠ 0 then PAGE_ALIGN (pv_component_size c)
         else PAGE_SIZE) < U64 →
      pv_img_comps_add_component s c = (s', c', none) →
      Reach s'
  | set_offset {s offset s'} : Reach s →
      offset % PAGE_SIZE = 0 →
      s.next_src + offset < U64 →
      pv_img_comps_set_offset s offset = (s', none) →
      Reach s'
  | finalize {sha512 fs s s' pld ald tld nep} : Reach s →
      pv_img_comps_finalize sha512 fs s = .ok (s', pld, ald, tld, nep) →
      Reach s'

/-- The distance the cursor must advance past a component: the claims'
`max(page_align(size), PAGE_SIZE)`. -/
def srcGap (c : PvComponent) : Nat :=
  max (PAGE_ALIGN (pv_component_size c)) PAGE_SIZE

/-- Layout well-formedness of the component list against the cursor bound:
every address is page-aligned and each component's address plus its gap is
at most the next component's address (the cursor for the last one). -/
def chainOk : List PvComponent → Nat → Prop
  | [], _ => True
  | c :: cs, bound =>
      c.src_addr % PAGE_SIZE = 0 ∧
      c.src_addr + srcGap c ≤
        (match cs with | [] => bound | c2 :: _ => c2.src_addr) ∧
      chainOk cs bound

/-- The collection invariant: page-aligned cursor and well-formed layout. -/
def compsInv (s : PvImgComps) : Prop :=
  s.next_src % PAGE_SIZE = 0 ∧ chainOk s.comps s.next_src

/-! ### External cryptographic primitives

The OpenSSL primitives used by crypto.c / pv_image.c are not part of this
repository; the development is parameterised over them.  EC keys are
abstract handles (`Nat`).  Everything proved below holds for every choice
of these operations; length facts the C code `g_assert`s (digest sizes,
GCM length preservation) appear as explicit hypotheses where needed. -/

structure CryptoOps where
  sha256 : List Nat → List Nat
  sha512 : List Nat → List Nat
  derive_key : Nat → Nat → List Nat
  evp_pkey_to_ecdh_pub_key : Nat → List Nat
  gcm_enc : List Nat → List Nat → List Nat → List Nat → List Nat × List Nat
  xts_update : List Nat → Nat → List Nat → List Nat

/-- `compute_exchange_key` from crypto.c: the 70-byte scratch buffer holds
the raw ECDH secret (`g_assert(key->size == 66)`) at offset 0 followed by
the four bytes `00 00 00 01`; the wrap key is its SHA-256 digest. -/
def compute_exchange_key (ops : CryptoOps) (cust host : Nat) : List Nat :=
  ops.sha256 (ops.derive_key cust host ++ [0x00, 0x00, 0x00, 0x01])

/-- `struct pv_hdr_key_slot` from pv_hdr_def.h. -/
structure PvHdrKeySlot where
  digest_key : List Nat
  wrapped_key : List Nat
  tag : List Nat
deriving DecidableEq

/-- `pv_hdr_key_slot_new` from pv_image.c: hash the host key in exchange
format into `digest_key`, then GCM-seal `cust_root_key` under the exchange
key.  `struct gcm_cipher_parms parms = { 0 }` leaves the IV all-zero. -/
def pv_hdr_key_slot_new (ops : CryptoOps) (cust_root_key : List Nat)
    (cust_key host_key : Nat) : PvHdrKeySlot :=
  { digest_key := ops.sha256 (ops.evp_pkey_to_ecdh_pub_key host_key),
    wrapped_key := (ops.gcm_enc (compute_exchange_key ops cust_key host_key)
      (List.replicate 12 0) [] cust_root_key).1,
    tag := (ops.gcm_enc (compute_exchange_key ops cust_key host_key)
      (List.replicate 12 0) [] cust_root_key).2 }

/-- `PvImage` from pv_image.h (cipher handles dropped: the XTS/GCM ciphers
are fixed to AES-256-XTS/AES-256-GCM by `pv_img_new`). -/
structure PvImage where
  tmp_dir : String
  stage3a : List Nat
  stage3a_psw_mask : Nat
  stage3a_psw_addr : Nat
  initial_psw_mask : Nat
  initial_psw_addr : Nat
  cust_pub_priv_key : Nat
  host_pub_keys : List Nat
  cust_root_key : List Nat
  gcm_iv : List Nat
  pcf : Nat
  scf : Nat
  cust_comm_key : List Nat
  xts_key : List Nat
  key_slots : List PvHdrKeySlot
  optional_items : List Nat
  comps : PvImgComps
deriving DecidableEq

/-- `pv_img_set_host_slots` from pv_image.c: one slot per host public key,
in list order. -/
def pv_img_set_host_slots (ops : CryptoOps) (img : PvImage) : PvImage :=
  { img with
    key_slots :=
      img.host_pub_keys.map
        (pv_hdr_key_slot_new ops img.cust_root_key img.cust_pub_priv_key) }

/-! ### Header sizes (pv_image.c / pv_hdr_def.h)

The packed struct sizes, by field widths of pv_hdr_def.h:
`pv_hdr_head` = 8+4+4+12+4+8+8+8+8+132+64+64+64 = 388,
`pv_hdr_key_slot` = 32+32+16 = 80,
`pv_hdr_encrypted` = 32+32+32+16+8+4+4 = 128 (checked by its
`STATIC_ASSERT`). -/

def sizeof_pv_hdr_head : Nat := 8 + 4 + 4 + 12 + 4 + 8 + 8 + 8 + 8 + 132 + 64 + 64 + 64

def sizeof_pv_hdr_key_slot : Nat := 32 + 32 + 16

def sizeof_pv_hdr_encrypted : Nat := 32 + 32 + 32 + 16 + 8 + 4 + 4

def AES_256_GCM_TAG_SIZE : Nat := 16

/-- `pv_img_get_aad_size` from pv_image.c. -/
def pv_img_get_aad_size (img : PvImage) : Nat :=
  sizeof_pv_hdr_head + sizeof_pv_hdr_key_slot * img.key_slots.length

/-- `pv_img_get_opt_items_size` from pv_image.c (`optional_items` carries
the item sizes; the list is never populated in the first version). -/
def pv_img_get_opt_items_size (img : PvImage) : Nat := img.optional_items.sum

/-- `pv_img_get_enc_size` from pv_image.c. -/
def pv_img_get_enc_size (img : PvImage) : Nat :=
  sizeof_pv_hdr_encrypted + pv_img_get_opt_items_size img

/-- `pv_img_get_tag_size` from pv_image.c. -/
def pv_img_get_tag_size (_ : PvImage) : Nat := AES_256_GCM_TAG_SIZE

/-- `pv_img_get_pv_hdr_size` from pv_image.c. -/
def pv_img_get_pv_hdr_size (img : PvImage) : Nat :=
  pv_img_get_aad_size img + pv_img_get_enc_size img + pv_img_get_tag_size img

/-! ### Secure header (pv_hdr_def.h / pv_hdr.c)

Integer fields carry host-order values; the serialiser emits them
big-endian, matching the `GUINT*_TO_BE` stores plus `memcpy` of the C.  The
two PSW words of the encrypted region are kept as their big-endian wire
bytes, as `pv_hdr_enc_init` stores them byte-swapped. -/

structure PvHdrHead where
  magic : Nat
  version : Nat
  phs : Nat
  iv : List Nat
  res1 : Nat
  nks : Nat
  sea : Nat
  nep : Nat
  pcf : Nat
  cust_pub_key : List Nat
  pld : List Nat
  ald : List Nat
  tld : List Nat
deriving DecidableEq

structure PvHdrEncrypted where
  cust_comm_key : List Nat
  img_enc_key_1 : List Nat
  img_enc_key_2 : List Nat
  psw_mask : List Nat
  psw_addr : List Nat
  scf : Nat
  noi : Nat
  res2 : Nat
deriving DecidableEq

structure PvHdr where
  head : PvHdrHead
  slots : List PvHdrKeySlot
  encrypted : PvHdrEncrypted
  optional_items : List Nat
  tag : List Nat
deriving DecidableEq

def zeroKeySlot : PvHdrKeySlot :=
  { digest_key := List.replicate 32 0, wrapped_key := List.replicate 32 0,
    tag := List.replicate 16 0 }

/-- `pv_hdr_alloc` from pv_hdr.c: zero-allocate the header, then set `phs`,
`nks`, `sea` and `noi`.  The function `g_assert`s `nks > 0`,
`sea % AES_BLOCK_SIZE == 0` and `sea >= sizeof(struct pv_hdr_encrypted)`;
these are proved for the builder's images below. -/
def pv_hdr_alloc (img : PvImage) : PvHdr :=
  { head :=
      { magic := 0
        version := 0
        phs := pv_img_get_pv_hdr_size img
        iv := List.replicate 12 0
        res1 := 0
        nks := img.key_slots.length
        sea := pv_img_get_enc_size img
        nep := 0
        pcf := 0
        cust_pub_key := List.replicate 132 0
        pld := List.replicate 64 0
        ald := List.replicate 64 0
        tld := List.replicate 64 0 }
    slots := List.replicate img.key_slots.length zeroKeySlot
    encrypted :=
      { cust_comm_key := List.replicate 32 0
        img_enc_key_1 := List.replicate 32 0
        img_enc_key_2 := List.replicate 32 0
        psw_mask := List.replicate 8 0
        psw_addr := List.replicate 8 0
        scf := 0
        noi := img.optional_items.length
        res2 := 0 }
    optional_items :=
      List.replicate (pv_img_get_enc_size img - sizeof_pv_hdr_encrypted) 0
    tag := List.replicate 16 0 }

/-- `pv_hdr_size` from pv_hdr.c. -/
def pv_hdr_size (hdr : PvHdr) : Nat := hdr.head.phs

/-- `pv_hdr_enc_size` from pv_hdr.c. -/
def pv_hdr_enc_size (hdr : PvHdr) : Nat := hdr.head.sea

/-- `pv_hdr_tag_size` from pv_hdr.c. -/
def pv_hdr_tag_size (_ : PvHdr) : Nat := AES_256_GCM_TAG_SIZE

/-- `pv_hdr_aad_size` from pv_hdr.c. -/
def pv_hdr_aad_size (hdr : PvHdr) : Nat :=
  pv_hdr_size hdr - pv_hdr_enc_size hdr - pv_hdr_tag_size hdr

/-- `pv_hdr_get_nks` from pv_hdr.c. -/
def pv_hdr_get_nks (hdr : PvHdr) : Nat := hdr.head.nks

/-- `pv_img_calc_pld_ald_tld_nep` from pv_image.c (the finalised collection
state is dropped here; the header claims do not depend on it). -/
def pv_img_calc_pld_ald_tld_nep (sha512 : List Nat → List Nat)
    (fs : String → List Nat) (img : PvImage) :
    Except PvError (List Nat × List Nat × List Nat × Nat) :=
  match pv_img_comps_finalize sha512 fs img.comps with
  | .error e => .error e
  | .ok (_, pld, ald, tld, nep) => .ok (pld, ald, tld, nep)

/-- `pv_hdr_aad_init` from pv_hdr.c. -/
def pv_hdr_aad_init (ops : CryptoOps) (fs : String → List Nat)
    (hdr : PvHdr) (img : PvImage) : Except PvError PvHdr :=
  match pv_img_calc_pld_ald_tld_nep ops.sha512 fs img with
  | .error e => .error e
  | .ok (pld, ald, tld, nep) =>
    .ok { hdr with
          head :=
            { hdr.head with
              magic := PV_MAGIC_VALUE
              version := PV_VERSION_1
              iv := img.gcm_iv
              pcf := img.pcf
              cust_pub_key :=
                ops.evp_pkey_to_ecdh_pub_key img.cust_pub_priv_key
              nep := nep
              pld := pld
              ald := ald
              tld := tld }
          slots := img.key_slots }

/-- `pv_img_get_stage3b_comp` from pv_image.c: the last element of the
collection, required to be the stage3b component
(`g_return_val_if_fail(length >= 1, NULL)` on an empty collection). -/
def pv_img_get_stage3b_comp (img : PvImage) : Except PvError PvComponent :=
  match img.comps.comps.getLast? with
  | none => .error .internal
  | some comp =>
    if pv_component_is_stage3b comp then .ok comp else .error .internal

/-- `pv_hdr_enc_init` from pv_hdr.c. -/
def pv_hdr_enc_init (hdr : PvHdr) (img : PvImage) : Except PvError PvHdr :=
  match pv_img_get_stage3b_comp img with
  | .error e => .error e
  | .ok stage3b =>
    .ok { hdr with
          encrypted :=
            { cust_comm_key := img.cust_comm_key
              img_enc_key_1 := img.xts_key.take 32
              img_enc_key_2 := (img.xts_key.drop 32).take 32
              psw_mask := be64 DEFAULT_INITIAL_PSW_MASK
              psw_addr := be64 (pv_component_get_src_addr stage3b % U64)
              scf := img.scf
              noi := img.optional_items.length
              res2 := hdr.encrypted.res2 } }

/-- `pv_hdr_init` from pv_hdr.c. -/
def pv_hdr_init (ops : CryptoOps) (fs : String → List Nat)
    (hdr : PvHdr) (img : PvImage) : Except PvError PvHdr :=
  match pv_hdr_aad_init ops fs hdr img with
  | .error e => .error e
  | .ok hdr1 => pv_hdr_enc_init hdr1 img

/-- `pv_hdr_new` from pv_hdr.c. -/
def pv_hdr_new (ops : CryptoOps) (fs : String → List Nat) (img : PvImage) :
    Except PvError PvHdr :=
  pv_hdr_init ops fs (pv_hdr_alloc img) img

/-- Wire bytes of `struct pv_hdr_head` (packed, big-endian stores). -/
def serializeHead (h : PvHdrHead) : List Nat :=
  be64 h.magic ++ be32 h.version ++ be32 h.phs ++ h.iv ++ be32 h.res1 ++
  be64 h.nks ++ be64 h.sea ++ be64 h.nep ++ be64 h.pcf ++ h.cust_pub_key ++
  h.pld ++ h.ald ++ h.tld

/-- Wire bytes of `struct pv_hdr_key_slot` (packed byte arrays). -/
def serializeSlot (s : PvHdrKeySlot) : List Nat :=
  s.digest_key ++ s.wrapped_key ++ s.tag

/-- Wire bytes of `struct pv_hdr_encrypted` (packed, big-endian stores). -/
def serializeEncrypted (e : PvHdrEncrypted) : List Nat :=
  e.cust_comm_key ++ e.img_enc_key_1 ++ e.img_enc_key_2 ++ e.psw_mask ++
  e.psw_addr ++ be64 e.scf ++ be32 e.noi ++ be32 e.res2

/-- `pv_hdr_write` from pv_hdr.c: head, key slots, encrypted region,
optional items, into a `phs`-byte zeroed buffer (the final 16 tag bytes
stay zero until sealing). -/
def pv_hdr_write (hdr : PvHdr) : List Nat :=
  serializeHead hdr.head ++ (hdr.slots.map serializeSlot).flatten ++
  serializeEncrypted hdr.encrypted ++ hdr.optional_items

/-- The `encrypt = true` path of `pv_hdr_serialize` from pv_hdr.c: write the
header, then GCM-seal in place — AAD is the head+slots prefix, the encrypted
region is overwritten by the ciphertext, the tag fills the last 16 bytes. -/
def pv_hdr_serialize (ops : CryptoOps) (hdr : PvHdr) (img : PvImage) :
    List Nat :=
  let buf := pv_hdr_write hdr ++ List.replicate AES_256_GCM_TAG_SIZE 0
  let aad_part := buf.take (pv_hdr_aad_size hdr)
  let enc_part := (buf.drop (pv_hdr_aad_size hdr)).take (pv_hdr_enc_size hdr)
  aad_part ++ (ops.gcm_enc img.cust_root_key img.gcm_iv aad_part enc_part).1 ++
    (ops.gcm_enc img.cust_root_key img.gcm_iv aad_part enc_part).2

/-! ### Short PSW and output writer (pv_image.c, file_utils.c) -/

/-- `~PSW_SHORT_ADDR_MASK` on a 64-bit `uint64_t`. -/
def NOT_PSW_SHORT_ADDR_MASK : Nat := 0xFFFFFFFF80000000

/-- `convert_psw_to_short_psw` from pv_image.c. -/
def convert_psw_to_short_psw (psw_mask psw_addr : Nat) : Except PvError Nat :=
  if psw_mask &&& PSW_SHORT_ADDR_MASK ≠ 0 then .error .internal
  else if psw_mask &&& PSW_MASK_BIT_12 ≠ 0 then .error .internal
  else if psw_addr &&& NOT_PSW_SHORT_ADDR_MASK ≠ 0 then .error .internal
  else .ok (psw_mask ||| PSW_MASK_BIT_12 ||| psw_addr)

/-- `write_short_psw` from pv_image.c: the converted PSW is emitted as 8
big-endian bytes (`GUINT64_TO_BE` plus `file_write`) at the current
position of the freshly opened output file, i.e. at offset 0. -/
def write_short_psw (psw_mask psw_addr : Nat) : Except PvError (List Nat) :=
  match convert_psw_to_short_psw psw_mask psw_addr with
  | .error e => .error e
  | .ok short_psw => .ok (be64 (short_psw % U64))

/-- `file_seek` from file_utils.c. -/
def file_seek (offset : Nat) : Option PvError :=
  if offset > LONG_MAX then some .offsetTooLarge else none

/-- The read/write loop of `seek_and_write_file` from file_utils.c: stream
the input in 4096-byte chunks to the output, counting the bytes read. -/
def swfGo (content : List Nat) : List Nat × Nat :=
  if h : (content.take 4096).length = 0 then ([], 0)
  else
    (content.take 4096 ++ (swfGo (content.drop 4096)).1,
      (content.take 4096).length + (swfGo (content.drop 4096)).2)
termination_by content.length
decreasing_by
  all_goals
    rw [List.length_take] at h
    rw [List.length_drop]
    omega

/-- `seek_and_write_file` from file_utils.c.  The second result is the
trace of `(offset, bytes)` writes on the output file; the streamed bytes
are written whether or not the final size comparison fails. -/
def seek_and_write_file (ifile_content : List Nat) (ifile_size offset : Nat) :
    Option PvError × List (Nat × List Nat) :=
  match file_seek offset with
  | some e => (some e, [])
  | none =>
    if ifile_size ≠ (swfGo ifile_content).2 then
      (some .fileChanged, [(offset, (swfGo ifile_content).1)])
    else (none, [(offset, (swfGo ifile_content).1)])

/-- `seek_and_write_buffer` from file_utils.c. -/
def seek_and_write_buffer (buf : List Nat) (offset : Nat) :
    Option PvError × List (Nat × List Nat) :=
  match file_seek offset with
  | some e => (some e, [])
  | none => (none, [(offset, buf)])

/-- `pv_component_write` from pv_comp.c. -/
def pv_component_write (fs : String → List Nat) (c : PvComponent) :
    Option PvError × List (Nat × List Nat) :=
  match c.data with
  | .buffer buf => seek_and_write_buffer buf (pv_component_get_src_addr c)
  | .file path size =>
    seek_and_write_file (fs path) size (pv_component_get_src_addr c)

/-- The component loop of `pv_img_write` from pv_image.c: write each
component in collection order, stopping at the first error (the writes
performed up to and including the failing call remain). -/
def writeCompsGo (fs : String → List Nat) :
    List PvComponent → Option PvError × List (Nat × List Nat)
  | [] => (none, [])
  | c :: cs =>
    match pv_component_write fs c with
    | (some e, w) => (some e, w)
    | (none, w) =>
      ((writeCompsGo fs cs).1, w ++ (writeCompsGo fs cs).2)

/-- `pv_img_write` from pv_image.c.  `stage3a_load_address` stands for
`STAGE3A_LOAD_ADDRESS` (declared in the boot headers, outside the given
sources). -/
def pv_img_write (fs : String → List Nat) (stage3a_load_address : Nat)
    (img : PvImage) : Option PvError × List (Nat × List Nat) :=
  match write_short_psw img.stage3a_psw_mask img.stage3a_psw_addr with
  | .error e => (some e, [])
  | .ok psw_bytes =>
    match seek_and_write_buffer img.stage3a stage3a_load_address with
    | (some e, w) => (some e, [(0, psw_bytes)] ++ w)
    | (none, w) =>
      ((writeCompsGo fs img.comps.comps).1,
        [(0, psw_bytes)] ++ w ++ (writeCompsGo fs img.comps.comps).2)

/-! ### Component preparation (pv_comp.c, crypto.c, file_utils.c) -/

/-- The page-wise cipher loop of `__encrypt_decrypt_bio` from crypto.c:
read a page (the read buffer is zero-initialised each round), break early
only at end-of-input of a non-empty stream, cipher the full page under the
current tweak, advance the tweak by `PAGE_SIZE`, and continue while whole
pages are read.  `EVP_CipherFinal_ex` contributes no bytes for XTS.
Returns (output bytes, total bytes read). -/
def encBioLoop (xts : Nat → List Nat → List Nat) (tweak : Nat)
    (content : List Nat) (tmp_size_in : Nat) : List Nat × Nat :=
  if (content.take PAGE_SIZE).length = 0 ∧
      tmp_size_in + (content.take PAGE_SIZE).length ≠ 0 then
    ([], tmp_size_in + (content.take PAGE_SIZE).length)
  else
    if h : (content.take PAGE_SIZE).length = PAGE_SIZE then
      (xts tweak (content.take PAGE_SIZE ++
          List.replicate (PAGE_SIZE - (content.take PAGE_SIZE).length) 0) ++
        (encBioLoop xts (tweak + PAGE_SIZE) (content.drop PAGE_SIZE)
          (tmp_size_in + (content.take PAGE_SIZE).length)).1,
       (encBioLoop xts (tweak + PAGE_SIZE) (content.drop PAGE_SIZE)
          (tmp_size_in + (content.take PAGE_SIZE).length)).2)
    else
      (xts tweak (content.take PAGE_SIZE ++
          List.replicate (PAGE_SIZE - (content.take PAGE_SIZE).length) 0),
       tmp_size_in + (content.take PAGE_SIZE).length)
termination_by content.length
decreasing_by
  all_goals
    rw [List.length_take] at h
    rw [List.length_drop]
    simp only [PAGE_SIZE] at *
    omega

/-- `__encrypt_decrypt_bio` from crypto.c, as used by `encrypt_buf` and
`encrypt_file`: (output bytes, `*size_in`, `*size_out`). -/
def encrypt_bio (xts : Nat → List Nat → List Nat) (tweak : Nat)
    (content : List Nat) : List Nat × Nat × Nat :=
  ((encBioLoop xts tweak content 0).1, (encBioLoop xts tweak content 0).2,
    (encBioLoop xts tweak content 0).1.length)

/-- `pv_component_align_and_encrypt` from pv_comp.c.  `out_path` stands for
`g_build_filename(tmp_path, comp_name)`; the encrypted stream is written
there and becomes the component's new backing file. -/
def pv_component_align_and_encrypt (xts : Nat → List Nat → List Nat)
    (fs : String → List Nat) (out_path : String) (c : PvComponent) :
    Except PvError PvComponent :=
  match c.data with
  | .buffer buf =>
    .ok { c with data := .buffer (encrypt_bio xts c.tweak
      (if IS_PAGE_ALIGNED buf.length then buf
       else buf ++ List.replicate (PAGE_ALIGN buf.length - buf.length) 0)).1 }
  | .file path _ =>
    if c.orig_size ≠ (encrypt_bio xts c.tweak (fs path)).2.1 then
      .error .fileChanged
    else
      .ok { c with data := .file out_path (encrypt_bio xts c.tweak (fs path)).2.2 }

/-- The stream loop of `pad_file_right` from file_utils.c: every iteration
writes the full zero-initialised page buffer, so the output grows by
`PAGE_SIZE` per round, including the final short (or empty) read. -/
def padFileGo (content : List Nat) : List Nat × Nat :=
  if h : (content.take PAGE_SIZE).length = PAGE_SIZE then
    (content.take PAGE_SIZE ++ (padFileGo (content.drop PAGE_SIZE)).1,
      PAGE_SIZE + (padFileGo (content.drop PAGE_SIZE)).2)
  else
    (content.take PAGE_SIZE ++
      List.replicate (PAGE_SIZE - (content.take PAGE_SIZE).length) 0,
     PAGE_SIZE)
termination_by content.length
decreasing_by
  all_goals
    rw [List.length_take] at h
    rw [List.length_drop]
    simp only [PAGE_SIZE] at *
    omega

/-- `pv_component_align` from pv_comp.c: a no-op on an already page-aligned
size; otherwise pad the buffer, respectively right-zero-pad the file into
`out_path` (`pad_file_right`). -/
def pv_component_align (fs : String → List Nat) (out_path : String)
    (c : PvComponent) : Except PvError PvComponent :=
  if IS_PAGE_ALIGNED (pv_component_size c) then .ok c
  else
    match c.data with
    | .buffer buf =>
      .ok { c with
            data := .buffer
              (buf ++ List.replicate (PAGE_ALIGN buf.length - buf.length) 0) }
    | .file path _ =>
      .ok { c with data := .file out_path (padFileGo (fs path)).2 }

/-! ### Concrete fixtures used to instantiate the theorems -/

/-- A concrete choice of the external primitives (all facts proved about
the builder hold for every choice). -/
def cryptoDummy : CryptoOps :=
  { sha256 := fun _ => List.replicate 32 0
    sha512 := fun _ => List.replicate 64 0
    derive_key := fun _ _ => List.replicate 66 0
    evp_pkey_to_ecdh_pub_key := fun _ => List.replicate 132 0
    gcm_enc := fun _ _ _ pt => (pt, List.replicate 16 0)
    xts_update := fun _ _ p => p }

def fsEmpty : String → List Nat := fun _ => []

def sha512Dummy : List Nat → List Nat := fun _ => List.replicate 64 0

def compEmptyBuf : PvComponent :=
  { type := PV_COMP_TYPE_KERNEL, data := .buffer [], orig_size := 0,
    tweak := 0, src_addr := 0 }

def stage3bCompW : PvComponent :=
  { type := PV_COMP_TYPE_STAGE3B, data := .buffer [], orig_size := 0,
    tweak := 0, src_addr := 4096 }

def compsW : PvImgComps :=
  { finalized := false, next_src := 8192, nep := 0, pld := [], ald := [],
    tld := [], comps := [stage3bCompW] }

def compsFinW : PvImgComps :=
  { finalized := true, next_src := 0, nep := 0, pld := [], ald := [],
    tld := [], comps := [] }

def compsC1W : PvImgComps :=
  { finalized := false, next_src := 8192, nep := 0, pld := [], ald := [],
    tld := [],
    comps :=
      [{ type := PV_COMP_TYPE_KERNEL, data := .buffer [], orig_size := 0,
         tweak := 0, src_addr := 0 },
       { type := PV_COMP_TYPE_CMDLINE, data := .file "parm" 0,
         orig_size := 0, tweak := 0, src_addr := 4096 }] }

def imgW : PvImage :=
  { tmp_dir := "", stage3a := [0, 1, 2], stage3a_psw_mask := 0x180000000,
    stage3a_psw_addr := 0x10000, initial_psw_mask := 0x180000000,
    initial_psw_addr := 0x10000, cust_pub_priv_key := 0,
    host_pub_keys := [0], cust_root_key := List.replicate 32 0,
    gcm_iv := List.replicate 12 0, pcf := 0, scf := 0,
    cust_comm_key := List.replicate 32 0, xts_key := List.replicate 64 0,
    key_slots := [zeroKeySlot], optional_items := [], comps := compsW }

def compBufC6 : PvComponent :=
  { type := PV_COMP_TYPE_KERNEL, data := .buffer [1, 2, 3], orig_size := 3,
    tweak := 0, src_addr := 0 }

def fsC10 : String → List Nat := fun _ => [7]

def compFileBad : PvComponent :=
  { type := PV_COMP_TYPE_KERNEL, data := .file "g" 2, orig_size := 2,
    tweak := 0, src_addr := 4096 }

def imgC10 : PvImage :=
  { imgW with comps := { compsW with comps := [compFileBad] } }

/-! ### Theorems -/

theorem beBytes_length (w n : Nat) : (beBytes w n).length = w := by
  induction w generalizing n with
  | zero => rfl
  | succ w ih => simp [beBytes, ih]

/-- Clearing the low `n` bits of an integer below `2^w` by AND-ing with the
high mask `2^w - 2^n` rounds down to a multiple of `2^n`. -/
theorem and_high_mask {w n : Nat} (hn : n ≤ w) {x : Nat} (hx : x < 2 ^ w) :
    x &&& (2 ^ w - 2 ^ n) = x / 2 ^ n * 2 ^ n := by
  have hM : 2 ^ w - 2 ^ n = 2 ^ n * (2 ^ (w - n) - 1) := by
    rw [Nat.mul_sub, Nat.mul_one, ← pow_add]
    have hwn : n + (w - n) = w := by omega
    rw [hwn]
  apply Nat.eq_of_testBit_eq
  intro i
  rw [Nat.testBit_and, hM, Nat.testBit_mul_pow_two,
      Nat.mul_comm (x / 2 ^ n) (2 ^ n), ← Nat.shiftRight_eq_div_pow,
      Nat.testBit_mul_pow_two, Nat.testBit_shiftRight]
  by_cases hni : n ≤ i
  · have h1 : n + (i - n) = i := by omega
    simp only [ge_iff_le, hni, decide_True, Bool.true_and, h1,
      Nat.testBit_two_pow_sub_one]
    by_cases hiw : i < w
    · have : i - n < w - n := by omega
      simp [this]
    · have hxi : x.testBit i = false := by
        apply Nat.testBit_lt_two_pow
        calc x < 2 ^ w := hx
        _ ≤ 2 ^ i := Nat.pow_le_pow_right (by norm_num) (by omega)
      simp [hxi]
  · simp [hni]

theorem IS_PAGE_ALIGNED_iff (a : Nat) :
    IS_PAGE_ALIGNED a = true ↔ a % PAGE_SIZE = 0 := by
  have h1 : (PAGE_SIZE - 1 : Nat) = 2 ^ 12 - 1 := by norm_num [PAGE_SIZE]
  have h2 : (a % U64) &&& (2 ^ 12 - 1) = a % PAGE_SIZE := by
    rw [Nat.and_pow_two_sub_one_eq_mod]
    show a % U64 % PAGE_SIZE = a % PAGE_SIZE
    exact Nat.mod_mod_of_dvd a (by norm_num [U64, PAGE_SIZE])
  rw [IS_PAGE_ALIGNED, h1, h2, beq_iff_eq]

theorem PAGE_ALIGN_eq {a : Nat} (h : a + (PAGE_SIZE - 1) < U64) :
    PAGE_ALIGN a = (a + (PAGE_SIZE - 1)) / PAGE_SIZE * PAGE_SIZE := by
  have ha : a < U64 := by omega
  have h1 : a % U64 = a := Nat.mod_eq_of_lt ha
  have h2 : (a + (PAGE_SIZE - 1)) % U64 = a + (PAGE_SIZE - 1) :=
    Nat.mod_eq_of_lt h
  have h3 : (U64 - PAGE_SIZE : Nat) = 2 ^ 64 - 2 ^ 12 := by
    norm_num [U64, PAGE_SIZE]
  have h4 : a + (PAGE_SIZE - 1) < 2 ^ 64 := h
  rw [PAGE_ALIGN, h1, h2, h3, and_high_mask (by norm_num) h4]
  norm_num [PAGE_SIZE]

theorem PAGE_SIZE_dvd_PAGE_ALIGN (a : Nat) : PAGE_SIZE ∣ PAGE_ALIGN a := by
  have hx : (a % U64 + (PAGE_SIZE - 1)) % U64 < 2 ^ 64 := by
    have : U64 = 2 ^ 64 := rfl
    exact this ▸ Nat.mod_lt _ (by norm_num [U64])
  have h3 : (U64 - PAGE_SIZE : Nat) = 2 ^ 64 - 2 ^ 12 := by
    norm_num [U64, PAGE_SIZE]
  rw [PAGE_ALIGN, h3, and_high_mask (by norm_num) hx]
  have : (2 ^ 12 : Nat) = PAGE_SIZE := by norm_num [PAGE_SIZE]
  rw [this]
  exact dvd_mul_left _ _

theorem PAGE_ALIGN_le {a : Nat} (h : a + (PAGE_SIZE - 1) < U64) :
    a ≤ PAGE_ALIGN a := by
  rw [PAGE_ALIGN_eq h]
  have hp : PAGE_SIZE = 4096 := rfl
  rw [hp]
  have hdm := Nat.div_add_mod (a + (4096 - 1)) 4096
  have hmod : (a + (4096 - 1)) % 4096 < 4096 := Nat.mod_lt _ (by norm_num)
  omega

theorem PAGE_ALIGN_lt {a : Nat} (h : a + (PAGE_SIZE - 1) < U64) :
    PAGE_ALIGN a ≤ a + (PAGE_SIZE - 1) := by
  rw [PAGE_ALIGN_eq h]
  exact Nat.div_mul_le_self _ _

theorem PAGE_ALIGN_pos {a : Nat} (ha : a ≠ 0) (h : a + (PAGE_SIZE - 1) < U64) :
    PAGE_SIZE ≤ PAGE_ALIGN a := by
  rw [PAGE_ALIGN_eq h]
  have hp : PAGE_SIZE = 4096 := rfl
  rw [hp]
  have hdm := Nat.div_add_mod (a + (4096 - 1)) 4096
  have hmod : (a + (4096 - 1)) % 4096 < 4096 := Nat.mod_lt _ (by norm_num)
  omega

theorem PAGE_ALIGN_of_aligned {a : Nat} (ha : a % PAGE_SIZE = 0)
    (h : a + (PAGE_SIZE - 1) < U64) : PAGE_ALIGN a = a := by
  rw [PAGE_ALIGN_eq h]
  have hp : PAGE_SIZE = 4096 := rfl
  rw [hp] at ha ⊢
  omega

theorem aldGo_snd_aux :
    ∀ n cur stop, stop - cur ≤ n → (aldGo cur stop).2 = pageCount (stop - cur) := by
  intro n
  induction n with
  | zero =>
    intro cur stop h
    rw [aldGo]
    have hlt : ¬(cur + PAGE_SIZE < stop) := by
      simp only [PAGE_SIZE]
      omega
    simp only [hlt, dite_false, dif_neg]
    have h0 : stop - cur = 0 := by omega
    rw [h0]
    rfl
  | succ n ih =>
    intro cur stop h
    rw [aldGo]
    by_cases hlt : cur + PAGE_SIZE < stop
    · simp only [hlt, dite_true, dif_pos]
      rw [ih (cur + PAGE_SIZE) stop (by simp only [PAGE_SIZE] at *; omega)]
      simp only [pageCount, PAGE_SIZE] at *
      omega
    · simp only [hlt, dite_false, dif_neg]
      simp only [pageCount, PAGE_SIZE] at *
      omega

theorem aldGo_snd (cur stop : Nat) : (aldGo cur stop).2 = pageCount (stop - cur) :=
  aldGo_snd_aux (stop - cur) cur stop (Nat.le_refl _)

/-- The address-list routine counts `max(ceil(size/PAGE_SIZE), 1)` pages. -/
theorem update_ald_snd (c : PvComponent) :
    (pv_component_update_ald c).2 = pageCount (pv_component_size c) := by
  rw [pv_component_update_ald, aldGo_snd, Nat.add_sub_cancel_left]

theorem tldGo_snd_aux :
    ∀ n tweak cur size, size - cur ≤ n → 0 < cur →
      (tldGo tweak cur size).2 = (size - cur + (PAGE_SIZE - 1)) / PAGE_SIZE := by
  intro n
  induction n with
  | zero =>
    intro tweak cur size h hc
    rw [tldGo]
    have hlt : ¬(cur < size ∨ cur = 0) := by omega
    rw [if_neg hlt]
    simp only [PAGE_SIZE]
    omega
  | succ n ih =>
    intro tweak cur size h hc
    rw [tldGo]
    by_cases hlt : cur < size ∨ cur = 0
    · rw [if_pos hlt]
      dsimp only
      rw [ih (tweak + PAGE_SIZE) (cur + PAGE_SIZE) size
        (by simp only [PAGE_SIZE] at *; omega) (by omega)]
      simp only [PAGE_SIZE] at *
      omega
    · rw [if_neg hlt]
      simp only [PAGE_SIZE]
      omega

/-- The tweak-list routine counts `max(ceil(size/PAGE_SIZE), 1)` pages. -/
theorem update_tld_snd (c : PvComponent) :
    (pv_component_update_tld c).2 = pageCount (pv_component_size c) := by
  rw [pv_component_update_tld, tldGo]
  have hcond : (0 < pv_component_size c ∨ (0 : Nat) = 0) := Or.inr rfl
  rw [if_pos hcond]
  rw [Nat.zero_add]
  show (tldGo (c.tweak + PAGE_SIZE) PAGE_SIZE (pv_component_size c)).2 + 1 =
    pageCount (pv_component_size c)
  rw [tldGo_snd_aux (pv_component_size c) (c.tweak + PAGE_SIZE) PAGE_SIZE
    (pv_component_size c) (by omega) (by decide)]
  simp only [pageCount, PAGE_SIZE]
  omega

/-- The page-list routine on a page-aligned buffer counts
`max(ceil(size/PAGE_SIZE), 1)` pages. -/
theorem pldBuf_snd {buf : List Nat} (h : buf.length % PAGE_SIZE = 0) :
    (pldBuf buf).2 = pageCount buf.length := by
  simp only [pldBuf]
  rw [if_neg (by omega : ¬(buf.length % PAGE_SIZE ≠ 0))]
  show (if buf.length / PAGE_SIZE ≠ 0 then buf.length / PAGE_SIZE else 1) =
    pageCount buf.length
  by_cases hq : buf.length / PAGE_SIZE ≠ 0
  · rw [if_pos hq]
    simp only [pageCount]
    have hp : PAGE_SIZE = 4096 := rfl
    rw [hp] at h hq ⊢
    omega
  · rw [if_neg hq]
    simp only [pageCount]
    have hp : PAGE_SIZE = 4096 := rfl
    rw [hp] at h hq ⊢
    omega

theorem pldFileGo_spec :
    ∀ n content size total nep, content.length ≤ n →
      total + content.length = size →
      ∃ bytes, pldFileGo content size total nep =
        .ok (bytes, nep + pageCount content.length) := by
  intro n
  induction n with
  | zero =>
    intro content size total nep hn hsz
    have hc : content = [] := List.length_eq_zero.mp (by omega)
    subst hc
    rw [pldFileGo]
    rw [dif_neg (by simp)]
    rw [if_pos (by simpa using hsz)]
    rw [show pageCount (List.length ([] : List Nat)) = 1 from by decide]
    exact ⟨_, rfl⟩
  | succ n ih =>
    intro content size total nep hn hsz
    have hread : (content.take PAGE_SIZE).length = min PAGE_SIZE content.length :=
      List.length_take _ _
    by_cases hbig : PAGE_SIZE < content.length
    · have hcond : total + (content.take PAGE_SIZE).length < size ∧
          (content.take PAGE_SIZE).length ≠ 0 := by
        rw [hread]
        simp only [PAGE_SIZE] at *
        omega
      have hlen : (content.drop PAGE_SIZE).length = content.length - PAGE_SIZE :=
        List.length_drop _ _
      obtain ⟨bytes, hb⟩ := ih (content.drop PAGE_SIZE) size
        (total + (content.take PAGE_SIZE).length) (nep + 1)
        (by rw [hlen]; simp only [PAGE_SIZE] at *; omega)
        (by rw [hlen, hread]; simp only [PAGE_SIZE] at *; omega)
      have harith : nep + 1 + pageCount (content.drop PAGE_SIZE).length =
          nep + pageCount content.length := by
        rw [hlen]
        simp only [pageCount, PAGE_SIZE] at *
        omega
      rw [harith] at hb
      rw [pldFileGo, dif_pos hcond, hb]
      exact ⟨_, rfl⟩
    · have hcond : ¬(total + (content.take PAGE_SIZE).length < size ∧
          (content.take PAGE_SIZE).length ≠ 0) := by
        rw [hread]
        simp only [PAGE_SIZE] at *
        omega
      have heq : total + (content.take PAGE_SIZE).length = size := by
        rw [hread]
        simp only [PAGE_SIZE] at *
        omega
      have harith : nep + pageCount content.length = nep + 1 := by
        simp only [pageCount, PAGE_SIZE] at *
        omega
      rw [pldFileGo, dif_neg hcond, if_pos heq, harith]
      exact ⟨_, rfl⟩

/-- The page-list routine on a file whose contents hold exactly the recorded
number of bytes counts `max(ceil(size/PAGE_SIZE), 1)` pages. -/
theorem update_pld_file {fs : String → List Nat} {c : PvComponent}
    {path : String} {size : Nat} (hd : c.data = .file path size)
    (hfs : (fs path).length = size) :
    ∃ bytes, pv_component_update_pld fs c =
      .ok (bytes, pageCount (pv_component_size c)) := by
  have hsz : pv_component_size c = size := by
    rw [pv_component_size, hd]
  rw [pv_component_update_pld, hd]
  dsimp only
  rw [hsz]
  obtain ⟨bytes, hb⟩ := pldFileGo_spec (fs path).length (fs path) size 0 0
    (Nat.le_refl _) (by omega)
  rw [hfs] at hb
  refine ⟨bytes, ?_⟩
  rw [hb, Nat.zero_add]

theorem srcSize_eq_srcGap {c : PvComponent}
    (h : pv_component_size c + (PAGE_SIZE - 1) < U64) :
    (if pv_component_size c ≠ 0 then PAGE_ALIGN (pv_component_size c)
     else PAGE_SIZE) = srcGap c := by
  rw [srcGap]
  by_cases hz : pv_component_size c ≠ 0
  · rw [if_pos hz, Nat.max_eq_left (PAGE_ALIGN_pos hz h)]
  · rw [if_neg hz]
    have h0 : pv_component_size c = 0 := by omega
    rw [h0]
    have ha : PAGE_ALIGN 0 = 0 := by
      rw [PAGE_ALIGN_eq (by norm_num [PAGE_SIZE, U64])]
      norm_num [PAGE_SIZE]
    rw [ha]
    exact (Nat.zero_max _).symm

theorem PAGE_SIZE_le_srcGap (c : PvComponent) : PAGE_SIZE ≤ srcGap c :=
  Nat.le_max_right _ _

theorem PAGE_SIZE_dvd_srcGap (c : PvComponent) : PAGE_SIZE ∣ srcGap c := by
  rw [srcGap]
  rcases Nat.le_total (PAGE_ALIGN (pv_component_size c)) PAGE_SIZE with h | h
  · rw [Nat.max_eq_right h]
  · rw [Nat.max_eq_left h]
    exact PAGE_SIZE_dvd_PAGE_ALIGN _

theorem chainOk_append {l : List PvComponent} {bound newBound : Nat}
    {c : PvComponent} (h : chainOk l bound) (hc : c.src_addr = bound)
    (hm : c.src_addr % PAGE_SIZE = 0)
    (hgap : c.src_addr + srcGap c ≤ newBound) :
    chainOk (l ++ [c]) newBound := by
  induction l with
  | nil => exact ⟨hm, hgap, trivial⟩
  | cons x xs ih =>
    obtain ⟨h1, h2, h3⟩ := h
    refine ⟨h1, ?_, ih h3⟩
    cases xs with
    | nil =>
      show x.src_addr + srcGap x ≤ c.src_addr
      rw [hc]
      exact h2
    | cons y ys => exact h2

theorem chainOk_aligned :
    ∀ (l : List PvComponent) (bound : Nat), chainOk l bound →
      ∀ c ∈ l, c.src_addr % PAGE_SIZE = 0 := by
  intro l
  induction l with
  | nil => intro bound _ c hc; cases hc
  | cons x xs ih =>
    intro bound h c hc
    obtain ⟨h1, _, h3⟩ := h
    rcases List.mem_cons.mp hc with hceq | hmem
    · exact hceq ▸ h1
    · exact ih bound h3 c hmem

theorem chainOk_chain' :
    ∀ (l : List PvComponent) (bound : Nat), chainOk l bound →
      List.Chain' (fun a b => a.src_addr + srcGap a ≤ b.src_addr) l := by
  intro l
  induction l with
  | nil => intro bound _; exact List.chain'_nil
  | cons x xs ih =>
    intro bound h
    obtain ⟨_, h2, h3⟩ := h
    cases xs with
    | nil => exact List.chain'_singleton _
    | cons y ys =>
      exact List.chain'_cons.mpr ⟨h2, ih bound h3⟩

theorem hash_comp_preserves {fs : String → List Nat} {s : PvImgComps}
    {comp : PvComponent} {s₁ : PvImgComps}
    (h : pv_img_comps_hash_comp fs s comp = .ok s₁) :
    s₁.next_src = s.next_src ∧ s₁.comps = s.comps ∧
      s₁.finalized = s.finalized := by
  rw [pv_img_comps_hash_comp] at h
  cases hp : pv_component_update_pld fs comp with
  | error e => rw [hp] at h; cases h
  | ok r1 =>
    rw [hp] at h
    dsimp only at h
    by_cases hcond : (pv_component_update_ald comp).2 = r1.2 ∧
        (pv_component_update_tld comp).2 = r1.2 ∧ s.nep + r1.2 < U64
    · rw [if_pos hcond] at h
      cases h
      exact ⟨rfl, rfl, rfl⟩
    · rw [if_neg hcond] at h
      cases h

theorem hashCompsFold_preserves {fs : String → List Nat} :
    ∀ (cs : List PvComponent) (s s' : PvImgComps),
      hashCompsFold fs s cs = .ok s' →
      s'.next_src = s.next_src ∧ s'.comps = s.comps ∧
        s'.finalized = s.finalized := by
  intro cs
  induction cs with
  | nil =>
    intro s s' h
    cases h
    exact ⟨rfl, rfl, rfl⟩
  | cons c cs ih =>
    intro s s' h
    rw [hashCompsFold] at h
    cases hh : pv_img_comps_hash_comp fs s c with
    | error e => rw [hh] at h; cases h
    | ok s₁ =>
      rw [hh] at h
      obtain ⟨e1, e2, e3⟩ := ih s₁ s' h
      obtain ⟨f1, f2, f3⟩ := hash_comp_preserves hh
      exact ⟨e1.trans f1, e2.trans f2, e3.trans f3⟩

/-- Every reachable collection state satisfies the layout invariant. -/
theorem reach_compsInv {s : PvImgComps} (h : Reach s) : compsInv s := by
  induction h with
  | init => exact ⟨by decide, trivial⟩
  | add hr hsz hnso heq ih =>
    rename_i s c s' c'
    by_cases hf : s.finalized
    · rw [pv_img_comps_add_component, if_pos hf] at heq
      simp at heq
    · rw [pv_img_comps_add_component, if_neg hf] at heq
      rw [srcSize_eq_srcGap hsz] at heq hnso
      simp only [Prod.mk.injEq] at heq
      obtain ⟨hs', _, _⟩ := heq
      subst hs'
      obtain ⟨ih1, ih2⟩ := ih
      have hmod : (s.next_src + srcGap c) % U64 = s.next_src + srcGap c :=
        Nat.mod_eq_of_lt hnso
      constructor
      · show (s.next_src + srcGap c) % U64 % PAGE_SIZE = 0
        obtain ⟨k, hk⟩ := PAGE_SIZE_dvd_srcGap c
        rw [hmod, Nat.add_mod, ih1, hk, Nat.mul_mod_right]
        simp
      · show chainOk (s.comps ++ [{ c with src_addr := s.next_src }])
          ((s.next_src + srcGap c) % U64)
        rw [hmod]
        exact chainOk_append ih2 rfl (by exact ih1)
          (by exact Nat.le_refl _)
  | set_offset hr hoff hov heq ih =>
    rename_i s offset s'
    by_cases hl : 0 < pv_img_comps_length s
    · rw [pv_img_comps_set_offset, if_pos hl] at heq
      simp at heq
    · rw [pv_img_comps_set_offset, if_neg hl] at heq
      simp only [Prod.mk.injEq] at heq
      obtain ⟨hs', _⟩ := heq
      subst hs'
      obtain ⟨ih1, _⟩ := ih
      have hempty : s.comps = [] := by
        rw [pv_img_comps_length] at hl
        exact List.length_eq_zero.mp (by omega)
      constructor
      · show (s.next_src + offset) % U64 % PAGE_SIZE = 0
        rw [Nat.mod_eq_of_lt hov, Nat.add_mod, ih1, hoff]
        simp
      · show chainOk s.comps ((s.next_src + offset) % U64)
        rw [hempty]
        trivial
  | finalize hr heq ih =>
    rename_i sha512 fs s s' pld ald tld nep
    rw [pv_img_comps_finalize] at heq
    cases hh : hashCompsFold fs { s with finalized := true } s.comps with
    | error e => rw [hh] at heq; cases heq
    | ok s₁ =>
      rw [hh] at heq
      cases heq
      obtain ⟨e1, e2, _⟩ := hashCompsFold_preserves s.comps _ _ hh
      obtain ⟨ih1, ih2⟩ := ih
      exact ⟨by rw [e1]; exact ih1, by rw [e1, e2]; exact ih2⟩

theorem swfGo_spec : ∀ n content, List.length content ≤ n →
    swfGo content = (content, content.length) := by
  intro n
  induction n with
  | zero =>
    intro content hn
    have hc : content = [] := List.length_eq_zero.mp (by omega)
    subst hc
    rw [swfGo]
    rfl
  | succ n ih =>
    intro content hn
    rw [swfGo]
    by_cases hz : (content.take 4096).length = 0
    · rw [dif_pos hz]
      rw [List.length_take] at hz
      have hc : content = [] := List.length_eq_zero.mp (by omega)
      subst hc
      rfl
    · rw [dif_neg hz]
      rw [List.length_take] at hz
      have hdl : (content.drop 4096).length = content.length - 4096 :=
        List.length_drop _ _
      rw [ih (content.drop 4096) (by omega)]
      rw [List.take_append_drop]
      rw [List.length_take, hdl]
      have : min 4096 content.length + (content.length - 4096) =
          content.length := by omega
      rw [this]

theorem seek_and_write_file_spec {content : List Nat} {isize offset : Nat}
    (hoff : offset ≤ LONG_MAX) :
    seek_and_write_file content isize offset =
      ((if isize = content.length then none else some PvError.fileChanged),
        [(offset, content)]) := by
  rw [seek_and_write_file, file_seek, if_neg (by omega)]
  rw [swfGo_spec content.length content (Nat.le_refl _)]
  by_cases h : isize = content.length
  · rw [if_neg (by omega : ¬isize ≠ content.length), if_pos h]
  · rw [if_pos (by omega : isize ≠ content.length), if_neg h]

theorem writeCompsGo_first_error {fs : String → List Nat} :
    ∀ (cs₁ : List PvComponent) (c : PvComponent) (cs₂ : List PvComponent)
      (e : PvError),
      (∀ x ∈ cs₁, (pv_component_write fs x).1 = none) →
      (pv_component_write fs c).1 = some e →
      writeCompsGo fs (cs₁ ++ c :: cs₂) =
        (some e, (cs₁.map (fun x => (pv_component_write fs x).2)).flatten ++
          (pv_component_write fs c).2) := by
  intro cs₁
  induction cs₁ with
  | nil =>
    intro c cs₂ e _ hc
    rw [List.nil_append, writeCompsGo]
    cases hw : pv_component_write fs c with
    | mk r w =>
      rw [hw] at hc
      simp only at hc
      subst hc
      simp [hw]
  | cons x xs ih =>
    intro c cs₂ e hok hc
    have hx : (pv_component_write fs x).1 = none :=
      hok x (List.mem_cons_self _ _)
    rw [List.cons_append, writeCompsGo]
    cases hw : pv_component_write fs x with
    | mk r w =>
      rw [hw] at hx
      simp only at hx
      subst hx
      rw [ih c cs₂ e (fun y hy => hok y (List.mem_cons_of_mem _ hy)) hc]
      simp [hw]

theorem writeCompsGo_all_ok {fs : String → List Nat} :
    ∀ (cs : List PvComponent),
      (∀ x ∈ cs, (pv_component_write fs x).1 = none) →
      writeCompsGo fs cs =
        (none, (cs.map (fun x => (pv_component_write fs x).2)).flatten) := by
  intro cs
  induction cs with
  | nil => intro _; rfl
  | cons x xs ih =>
    intro hok
    have hx : (pv_component_write fs x).1 = none :=
      hok x (List.mem_cons_self _ _)
    rw [writeCompsGo]
    cases hw : pv_component_write fs x with
    | mk r w =>
      rw [hw] at hx
      simp only at hx
      subst hx
      rw [ih (fun y hy => hok y (List.mem_cons_of_mem _ hy))]
      simp [hw]

theorem land_high31_eq_zero_iff {a : Nat} (ha : a < U64) :
    a &&& NOT_PSW_SHORT_ADDR_MASK = 0 ↔ a < 2 ^ 31 := by
  have hmask : NOT_PSW_SHORT_ADDR_MASK = 2 ^ 64 - 2 ^ 31 := by
    norm_num [NOT_PSW_SHORT_ADDR_MASK]
  rw [hmask, and_high_mask (by norm_num) (show a < 2 ^ 64 from ha)]
  constructor
  · intro h
    have h31 : (0 : Nat) < 2 ^ 31 := by norm_num
    rcases Nat.mul_eq_zero.mp h with h0 | h0
    · exact (Nat.div_eq_zero_iff h31).mp h0
    · exact absurd h0 (by norm_num)
  · intro h
    have : a / 2 ^ 31 = 0 := Nat.div_eq_of_lt h
    rw [this, Nat.zero_mul]

theorem encBioLoop_nil {xts : Nat → List Nat → List Nat}
    (hxts : ∀ t p, (xts t p).length = p.length) (tweak tmp : Nat) :
    (encBioLoop xts tweak [] tmp).2 = tmp ∧
    (encBioLoop xts tweak [] tmp).1.length =
      if tmp = 0 then PAGE_SIZE else 0 := by
  rw [encBioLoop]
  by_cases ht : tmp = 0
  · rw [if_neg (by simp [ht])]
    rw [dif_neg (by simp [PAGE_SIZE] :
      ¬((List.take PAGE_SIZE ([] : List Nat)).length = PAGE_SIZE))]
    refine ⟨by simp, ?_⟩
    rw [if_pos ht, hxts]
    simp

  · rw [if_pos (by simp [ht])]
    exact ⟨by simp, by rw [if_neg ht]; simp⟩

theorem encBioLoop_spec {xts : Nat → List Nat → List Nat}
    (hxts : ∀ t p, (xts t p).length = p.length) :
    ∀ n content tweak tmp, List.length content ≤ n →
      (encBioLoop xts tweak content tmp).2 = tmp + content.length ∧
      (encBioLoop xts tweak content tmp).1.length =
        (if content.length = 0 ∧ tmp = 0 then 1
         else (content.length + (PAGE_SIZE - 1)) / PAGE_SIZE) * PAGE_SIZE := by
  intro n
  induction n with
  | zero =>
    intro content tweak tmp hn
    have hc : content = [] := List.length_eq_zero.mp (by omega)
    subst hc
    obtain ⟨h1, h2⟩ := encBioLoop_nil hxts tweak tmp
    refine ⟨by rw [h1]; simp, ?_⟩
    rw [h2]
    by_cases ht : tmp = 0
    · rw [if_pos ht, if_pos (by simp [ht])]
      omega
    · rw [if_neg ht, if_neg (by simp [ht])]
      simp [PAGE_SIZE]
  | succ n ih =>
    intro content tweak tmp hn
    by_cases hz : content = []
    · subst hz
      obtain ⟨h1, h2⟩ := encBioLoop_nil hxts tweak tmp
      refine ⟨by rw [h1]; simp, ?_⟩
      rw [h2]
      by_cases ht : tmp = 0
      · rw [if_pos ht, if_pos (by simp [ht])]
        omega
      · rw [if_neg ht, if_neg (by simp [ht])]
        simp [PAGE_SIZE]
    · have hlenpos : 0 < content.length := List.length_pos.mpr hz
      have hread : (content.take PAGE_SIZE).length = min PAGE_SIZE content.length :=
        List.length_take _ _
      have hnobreak : ¬((content.take PAGE_SIZE).length = 0 ∧
          tmp + (content.take PAGE_SIZE).length ≠ 0) := by
        rw [hread]
        simp only [PAGE_SIZE]
        omega
      rw [encBioLoop, if_neg hnobreak]
      by_cases hfull : (content.take PAGE_SIZE).length = PAGE_SIZE
      · rw [dif_pos hfull]
        have hple : PAGE_SIZE ≤ content.length := by
          rw [hread] at hfull
          simp only [PAGE_SIZE] at *
          omega
        have hdl : (content.drop PAGE_SIZE).length = content.length - PAGE_SIZE :=
          List.length_drop _ _
        obtain ⟨r1, r2⟩ := ih (content.drop PAGE_SIZE) (tweak + PAGE_SIZE)
          (tmp + (content.take PAGE_SIZE).length)
          (by rw [hdl]; simp only [PAGE_SIZE] at *; omega)
        refine ⟨?_, ?_⟩
        · rw [r1, hdl, hfull]
          simp only [PAGE_SIZE] at *
          omega
        · rw [List.length_append, hxts, List.length_append,
            List.length_replicate, r2, hdl, hfull]
          have hc2 : ¬((content.length - PAGE_SIZE = 0) ∧
              (tmp + PAGE_SIZE = 0)) := by
            simp only [PAGE_SIZE]
            omega
          rw [if_neg hc2]
          by_cases hc3 : content.length = 0 ∧ tmp = 0
          · simp only [PAGE_SIZE] at *
            omega
          · rw [if_neg hc3]
            simp only [PAGE_SIZE] at *
            omega
      · rw [dif_neg hfull]
        have hlt : content.length < PAGE_SIZE := by
          rw [hread] at hfull
          simp only [PAGE_SIZE] at *
          omega
        have htake : (content.take PAGE_SIZE).length = content.length := by
          rw [hread]
          omega

        refine ⟨by rw [htake], ?_⟩
        rw [hxts, List.length_append, List.length_replicate, htake]
        by_cases hc3 : content.length = 0 ∧ tmp = 0
        · rw [if_pos hc3]
          simp only [PAGE_SIZE] at *
          omega
        · rw [if_neg hc3]
          simp only [PAGE_SIZE] at *
          omega

theorem padFileGo_spec : ∀ n content, List.length content ≤ n →
    (padFileGo content).2 = (content.length / PAGE_SIZE + 1) * PAGE_SIZE := by
  intro n
  induction n with
  | zero =>
    intro content hn
    have hc : content = [] := List.length_eq_zero.mp (by omega)
    subst hc
    rw [padFileGo]
    rw [dif_neg (by simp [PAGE_SIZE] :
      ¬((List.take PAGE_SIZE ([] : List Nat)).length = PAGE_SIZE))]
    simp [PAGE_SIZE]
  | succ n ih =>
    intro content hn
    rw [padFileGo]
    have hread : (content.take PAGE_SIZE).length = min PAGE_SIZE content.length :=
      List.length_take _ _
    by_cases hfull : (content.take PAGE_SIZE).length = PAGE_SIZE
    · rw [dif_pos hfull]
      have hdl : (content.drop PAGE_SIZE).length = content.length - PAGE_SIZE :=
        List.length_drop _ _
      rw [ih (content.drop PAGE_SIZE)
        (by rw [hdl]; simp only [PAGE_SIZE]; omega)]
      rw [hdl]
      rw [hread] at hfull
      simp only [PAGE_SIZE] at *
      omega
    · rw [dif_neg hfull]
      rw [hread] at hfull
      simp only [PAGE_SIZE] at *
      omega

theorem encrypt_bio_len {xts : Nat → List Nat → List Nat}
    (hxts : ∀ t p, (xts t p).length = p.length) (tweak : Nat)
    (content : List Nat) :
    (encrypt_bio xts tweak content).2.1 = content.length ∧
    (encrypt_bio xts tweak content).1.length =
      (if content.length = 0 then 1
       else (content.length + (PAGE_SIZE - 1)) / PAGE_SIZE) * PAGE_SIZE ∧
    (encrypt_bio xts tweak content).2.2 =
      (encrypt_bio xts tweak content).1.length := by
  obtain ⟨h1, h2⟩ :=
    encBioLoop_spec hxts content.length content tweak 0 (Nat.le_refl _)
  refine ⟨?_, ?_, rfl⟩
  · simp only [encrypt_bio]
    rw [h1]
    omega
  · simp only [encrypt_bio]
    rw [h2]
    by_cases hz : content.length = 0
    · rw [if_pos hz, if_pos ⟨hz, rfl⟩]
    · rw [if_neg hz, if_neg (by simp [hz])]

theorem aligned_ceil_self {m : Nat} (hm : m % PAGE_SIZE = 0) (hz : m ≠ 0) :
    (m + (PAGE_SIZE - 1)) / PAGE_SIZE * PAGE_SIZE = m := by
  have hp : PAGE_SIZE = 4096 := rfl
  rw [hp] at hm ⊢
  omega

theorem update_pld_ok {fs : String → List Nat} {c : PvComponent}
    (hal : pv_component_size c % PAGE_SIZE = 0)
    (hfs : ∀ path size, c.data = .file path size → (fs path).length = size) :
    ∃ bytes, pv_component_update_pld fs c =
      .ok (bytes, pageCount (pv_component_size c)) := by
  cases hd : c.data with
  | buffer buf =>
    have hsz : pv_component_size c = buf.length := by
      rw [pv_component_size, hd]
    refine ⟨(pldBuf buf).1, ?_⟩
    rw [pv_component_update_pld, hd]
    dsimp only
    have h2 : (pldBuf buf).2 = pageCount (pv_component_size c) := by
      rw [pldBuf_snd (by rw [← hsz]; exact hal), hsz]
    rw [← h2]
  | file path size => exact update_pld_file hd (hfs path size hd)

theorem hash_comp_ok {fs : String → List Nat} {s : PvImgComps}
    {c : PvComponent}
    (hal : pv_component_size c % PAGE_SIZE = 0)
    (hfs : ∀ path size, c.data = .file path size → (fs path).length = size)
    (hov : s.nep + pageCount (pv_component_size c) < U64) :
    ∃ s₁, pv_img_comps_hash_comp fs s c = .ok s₁ ∧
      s₁.nep = s.nep + pageCount (pv_component_size c) ∧
      s₁.next_src = s.next_src ∧ s₁.comps = s.comps ∧
      s₁.finalized = s.finalized := by
  obtain ⟨bytes, hpld⟩ := update_pld_ok hal hfs
  rw [pv_img_comps_hash_comp, hpld]
  dsimp only
  rw [if_pos ⟨update_ald_snd c, update_tld_snd c, hov⟩]
  exact ⟨_, rfl, rfl, rfl, rfl, rfl⟩

theorem hashCompsFold_ok {fs : String → List Nat} :
    ∀ (cs : List PvComponent) (s : PvImgComps),
      (∀ c ∈ cs, pv_component_size c % PAGE_SIZE = 0) →
      (∀ c ∈ cs, ∀ path size, c.data = .file path size →
        (fs path).length = size) →
      s.nep + (cs.map (fun c => pageCount (pv_component_size c))).sum < U64 →
      ∃ s', hashCompsFold fs s cs = .ok s' ∧
        s'.nep = s.nep +
          (cs.map (fun c => pageCount (pv_component_size c))).sum ∧
        s'.next_src = s.next_src ∧ s'.comps = s.comps ∧
        s'.finalized = s.finalized := by
  intro cs
  induction cs with
  | nil =>
    intro s _ _ _
    exact ⟨s, rfl, by simp, rfl, rfl, rfl⟩
  | cons c cs ih =>
    intro s h1 h2 hov
    rw [List.map_cons, List.sum_cons] at hov
    obtain ⟨s₁, hc, hnep, hn1, hc1, hf1⟩ :=
      @hash_comp_ok fs s c (h1 c (List.mem_cons_self _ _))
        (h2 c (List.mem_cons_self _ _)) (by omega)
    rw [hashCompsFold, hc]
    obtain ⟨s', hf, hnep', hn2, hc2, hf2⟩ := ih s₁
      (fun x hx => h1 x (List.mem_cons_of_mem _ hx))
      (fun x hx => h2 x (List.mem_cons_of_mem _ hx))
      (by rw [hnep]; omega)
    refine ⟨s', hf, ?_, hn2.trans hn1, hc2.trans hc1, hf2.trans hf1⟩
    rw [hnep', hnep, List.map_cons, List.sum_cons]
    omega

theorem pv_hdr_new_head {ops : CryptoOps} {fs : String → List Nat}
    {img : PvImage} {hdr : PvHdr} (h : pv_hdr_new ops fs img = .ok hdr) :
    hdr.head.magic = PV_MAGIC_VALUE ∧ hdr.head.version = PV_VERSION_1 ∧
    hdr.head.phs = pv_img_get_pv_hdr_size img ∧
    hdr.head.sea = pv_img_get_enc_size img ∧
    hdr.head.nks = img.key_slots.length := by
  rw [pv_hdr_new, pv_hdr_init] at h
  cases haad : pv_hdr_aad_init ops fs (pv_hdr_alloc img) img with
  | error e => rw [haad] at h; cases h
  | ok hdr1 =>
    rw [haad] at h
    rw [pv_hdr_aad_init] at haad
    cases hcalc : pv_img_calc_pld_ald_tld_nep ops.sha512 fs img with
    | error e => rw [hcalc] at haad; cases haad
    | ok r =>
      rw [hcalc] at haad
      obtain ⟨pld, ald, tld, nep⟩ := r
      dsimp only at haad
      cases haad
      unfold pv_hdr_enc_init at h
      cases hs3 : pv_img_get_stage3b_comp img with
      | error e => rw [hs3] at h; cases h
      | ok stage3b =>
        rw [hs3] at h
        cases h
        exact ⟨rfl, rfl, rfl, rfl, rfl⟩

theorem be64_length (n : Nat) : (be64 n).length = 8 := beBytes_length 8 n

theorem be32_length (n : Nat) : (be32 n).length = 4 := beBytes_length 4 n

theorem serializeHead_take12 (h : PvHdrHead) :
    (serializeHead h).take 12 = be64 h.magic ++ be32 h.version := by
  rw [serializeHead]
  simp only [List.append_assoc]
  rw [List.take_append_eq_append_take]
  rw [List.take_of_length_le (by simp [be64_length] : (be64 h.magic).length ≤ 12)]
  rw [be64_length]
  rw [List.take_append_eq_append_take]
  rw [List.take_of_length_le
    (by simp [be32_length] : (be32 h.version).length ≤ 12 - 8)]
  rw [be32_length]
  have h0 : 12 - 8 - 4 = 0 := by omega
  rw [h0, List.take_zero, List.append_nil]

theorem serializeHead_length_ge (h : PvHdrHead) :
    12 ≤ (serializeHead h).length := by
  rw [serializeHead]
  simp only [List.length_append, be64_length, be32_length]
  omega

theorem pv_hdr_serialize_take12 (ops : CryptoOps) (img : PvImage)
    (hdr : PvHdr) (haad : 12 ≤ pv_hdr_aad_size hdr) :
    (pv_hdr_serialize ops hdr img).take 12 =
      be64 hdr.head.magic ++ be32 hdr.head.version := by
  simp only [pv_hdr_serialize]
  have hheadlen : 12 ≤ (serializeHead hdr.head).length :=
    serializeHead_length_ge _
  have hwlen : 12 ≤ (pv_hdr_write hdr).length := by
    rw [pv_hdr_write]
    simp only [List.length_append]
    omega
  have hBlen : 12 ≤
      (pv_hdr_write hdr ++ List.replicate AES_256_GCM_TAG_SIZE 0).length := by
    rw [List.length_append]
    omega
  have hA : 12 ≤ ((pv_hdr_write hdr ++
      List.replicate AES_256_GCM_TAG_SIZE 0).take (pv_hdr_aad_size hdr)).length := by
    rw [List.length_take]
    omega
  rw [List.append_assoc]
  rw [List.take_append_of_le_length hA]
  rw [List.take_take, Nat.min_eq_left haad]
  rw [List.take_append_of_le_length hwlen]
  rw [pv_hdr_write]
  simp only [List.append_assoc]
  rw [List.take_append_of_le_length hheadlen]
  exact serializeHead_take12 _

/-! ### The claims -/

/-- C1: for every component in the collection at finalize time (components
are page-aligned by preparation, and a file-backed component's content
still holds exactly its recorded size), the three measurement routines
`update_pld`, `update_ald` and `update_tld` return the same page count,
which equals `max(ceil(size/4096), 1)` — an empty component contributing
exactly 1 page — and the collection's reported `nep` equals the sum of the
per-component page counts. -/
theorem claim_C1 (fs : String → List Nat) (sha512 : List Nat → List Nat)
    (s : PvImgComps)
    (hal : ∀ c ∈ s.comps, pv_component_size c % PAGE_SIZE = 0)
    (hfs : ∀ c ∈ s.comps, ∀ path size, c.data = .file path size →
      (fs path).length = size)
    (hnep : s.nep = 0)
    (hsum : (s.comps.map (fun c => pageCount (pv_component_size c))).sum <
      U64) :
    (∀ c ∈ s.comps,
      (∃ bytes, pv_component_update_pld fs c =
        .ok (bytes, pageCount (pv_component_size c))) ∧
      (pv_component_update_ald c).2 = pageCount (pv_component_size c) ∧
      (pv_component_update_tld c).2 = pageCount (pv_component_size c)) ∧
    pageCount 0 = 1 ∧
    (∃ s' pld ald tld, pv_img_comps_finalize sha512 fs s =
      .ok (s', pld, ald, tld,
        (s.comps.map (fun c => pageCount (pv_component_size c))).sum)) := by
  refine ⟨?_, by decide, ?_⟩
  · intro c hc
    exact ⟨update_pld_ok (hal c hc) (hfs c hc), update_ald_snd c,
      update_tld_snd c⟩
  · obtain ⟨s', hf, hnep', _, _, _⟩ := hashCompsFold_ok s.comps
      { s with finalized := true } hal hfs
      (by show s.nep + _ < U64; rw [hnep]; omega)
    have h2 : s'.nep =
        (s.comps.map (fun c => pageCount (pv_component_size c))).sum := by
      rw [hnep']
      show s.nep + _ = _
      rw [hnep, Nat.zero_add]
    refine ⟨s', sha512 s'.pld, sha512 s'.ald, sha512 s'.tld, ?_⟩
    rw [pv_img_comps_finalize, hf]
    dsimp only
    rw [h2]

/-- C1 witness: a two-component collection (a one-page kernel buffer and an
empty parmfile) finalises with `nep = 2`. -/
theorem claim_C1_witness :
    compsC1W.nep = 0 ∧
    (∃ s' pld ald tld,
      pv_img_comps_finalize sha512Dummy fsEmpty compsC1W =
        .ok (s', pld, ald, tld, 2)) := by
  have h := claim_C1 fsEmpty sha512Dummy compsC1W
    (by decide)
    (by
      intro c hc path size hd
      rcases List.mem_cons.mp hc with h1 | h2
      · subst h1
        cases hd
      · rcases List.mem_cons.mp h2 with h3 | h4
        · subst h3
          simp only [PvComponentData.file.injEq] at hd
          obtain ⟨hp, hs⟩ := hd
          subst hs
          rfl
        · cases h4)
    rfl
    (by decide)
  obtain ⟨s', pld, ald, tld, hfin⟩ := h.2.2
  rw [show (compsC1W.comps.map
    (fun c => pageCount (pv_component_size c))).sum = 2 from by decide] at hfin
  exact ⟨rfl, s', pld, ald, tld, hfin⟩

/-- C9: adding a component to a finalized collection returns the
Component.Finalized error, leaves the collection unchanged, and does not
assign the rejected component's source address. -/
theorem claim_C9 (s : PvImgComps) (c : PvComponent)
    (hf : s.finalized = true) :
    pv_img_comps_add_component s c = (s, c, some PvError.finalized) := by
  rw [pv_img_comps_add_component, if_pos hf]

/-- C9 witness: a concrete finalized collection rejects a concrete
component unchanged. -/
theorem claim_C9_witness :
    pv_img_comps_add_component compsFinW compEmptyBuf =
      (compsFinW, compEmptyBuf, some PvError.finalized) :=
  claim_C9 compsFinW compEmptyBuf rfl

/-- C5: in every reachable collection state, all assigned source addresses
are page-aligned, consecutive components are separated by at least
`max(page_align(size), PAGE_SIZE)` (hence strictly increasing in insertion
order); and an `add` on a non-finalized state assigns the current
`next_src` cursor to the component and advances the cursor by exactly that
amount. -/
theorem claim_C5 :
    (∀ s, Reach s →
      (∀ c ∈ s.comps, c.src_addr % PAGE_SIZE = 0) ∧
      List.Chain' (fun a b =>
        a.src_addr + max (PAGE_ALIGN (pv_component_size a)) PAGE_SIZE ≤
          b.src_addr) s.comps ∧
      List.Chain' (fun a b => a.src_addr < b.src_addr) s.comps) ∧
    (∀ s c, s.finalized = false →
      pv_component_size c + (PAGE_SIZE - 1) < U64 →
      s.next_src + max (PAGE_ALIGN (pv_component_size c)) PAGE_SIZE < U64 →
      pv_img_comps_add_component s c =
        ({ s with
            comps := s.comps ++ [{ c with src_addr := s.next_src }],
            next_src := s.next_src +
              max (PAGE_ALIGN (pv_component_size c)) PAGE_SIZE },
         { c with src_addr := s.next_src }, none)) := by
  constructor
  · intro s hs
    obtain ⟨_, hchain⟩ := reach_compsInv hs
    refine ⟨chainOk_aligned _ _ hchain, chainOk_chain' _ _ hchain, ?_⟩
    refine List.Chain'.imp ?_ (chainOk_chain' _ _ hchain)
    intro a b hab
    have hg := PAGE_SIZE_le_srcGap a
    show a.src_addr < b.src_addr
    have hab' : a.src_addr + srcGap a ≤ b.src_addr := hab
    simp only [PAGE_SIZE] at hg
    omega
  · intro s c hf hsz hov
    rw [pv_img_comps_add_component, if_neg (by rw [hf]; simp)]
    rw [srcSize_eq_srcGap hsz]
    have hov' : s.next_src + srcGap c < U64 := hov
    rw [Nat.mod_eq_of_lt hov']
    rfl

/-- C5 witness: one concrete `add` on the fresh collection, with the
reachable state's invariants evaluated. -/
theorem claim_C5_witness :
    (∀ c ∈ compsC1W.comps.take 1, c.src_addr % PAGE_SIZE = 0) ∧
    pv_img_comps_add_component pv_img_comps_new compEmptyBuf =
      ({ pv_img_comps_new with
          comps := [{ compEmptyBuf with src_addr := 0 }],
          next_src := max (PAGE_ALIGN 0) PAGE_SIZE },
       { compEmptyBuf with src_addr := 0 }, none) := by
  constructor
  · decide
  · have h := claim_C5.2 pv_img_comps_new compEmptyBuf rfl (by decide)
      (by decide)
    exact h.trans (by decide)

/-- C2: for a header allocated from an image whose key slots were built
from the supplied host certificates (one host key per certificate,
`pv_img_get_host_keys`; at least one certificate, else `pv_img_set_keys`
fails) and with no optional items (never populated in this version): `phs`
equals the AAD size (fixed head plus `nks` key slots) plus `sea` plus the
16-byte tag, `sea` is a multiple of 16 and at least the fixed encrypted
region, and `nks` is at least 1 and equals the number of host
certificates. -/
theorem claim_C2 (ops : CryptoOps) (img : PvImage) (ncerts : Nat)
    (hcerts : img.host_pub_keys.length = ncerts)
    (hne : 1 ≤ ncerts)
    (hopt : img.optional_items = []) :
    pv_hdr_size (pv_hdr_alloc (pv_img_set_host_slots ops img)) =
      pv_hdr_aad_size (pv_hdr_alloc (pv_img_set_host_slots ops img)) +
      pv_hdr_enc_size (pv_hdr_alloc (pv_img_set_host_slots ops img)) +
      AES_256_GCM_TAG_SIZE ∧
    pv_hdr_aad_size (pv_hdr_alloc (pv_img_set_host_slots ops img)) =
      sizeof_pv_hdr_head + sizeof_pv_hdr_key_slot *
        pv_hdr_get_nks (pv_hdr_alloc (pv_img_set_host_slots ops img)) ∧
    pv_hdr_enc_size (pv_hdr_alloc (pv_img_set_host_slots ops img)) % 16 = 0 ∧
    sizeof_pv_hdr_encrypted ≤
      pv_hdr_enc_size (pv_hdr_alloc (pv_img_set_host_slots ops img)) ∧
    pv_hdr_get_nks (pv_hdr_alloc (pv_img_set_host_slots ops img)) = ncerts ∧
    1 ≤ pv_hdr_get_nks (pv_hdr_alloc (pv_img_set_host_slots ops img)) := by
  have hlen : (pv_img_set_host_slots ops img).key_slots.length = ncerts := by
    simp only [pv_img_set_host_slots, List.length_map]
    exact hcerts
  have hopt2 : (pv_img_set_host_slots ops img).optional_items = [] := hopt
  have hsea : pv_hdr_enc_size (pv_hdr_alloc (pv_img_set_host_slots ops img)) =
      sizeof_pv_hdr_encrypted := by
    show pv_img_get_enc_size (pv_img_set_host_slots ops img) =
      sizeof_pv_hdr_encrypted
    rw [pv_img_get_enc_size, pv_img_get_opt_items_size, hopt2]
    rfl
  have hnks : pv_hdr_get_nks (pv_hdr_alloc (pv_img_set_host_slots ops img)) =
      ncerts := by
    show (pv_img_set_host_slots ops img).key_slots.length = ncerts
    exact hlen
  have hphs : pv_hdr_size (pv_hdr_alloc (pv_img_set_host_slots ops img)) =
      sizeof_pv_hdr_head + sizeof_pv_hdr_key_slot * ncerts +
        sizeof_pv_hdr_encrypted + AES_256_GCM_TAG_SIZE := by
    show pv_img_get_pv_hdr_size (pv_img_set_host_slots ops img) = _
    rw [pv_img_get_pv_hdr_size, pv_img_get_aad_size, hlen,
      pv_img_get_enc_size, pv_img_get_opt_items_size, hopt2,
      pv_img_get_tag_size]
    simp
  have haad : pv_hdr_aad_size (pv_hdr_alloc (pv_img_set_host_slots ops img)) =
      sizeof_pv_hdr_head + sizeof_pv_hdr_key_slot * ncerts := by
    rw [pv_hdr_aad_size, hphs, hsea]
    simp only [pv_hdr_tag_size]
    omega
  refine ⟨?_, ?_, ?_, ?_, hnks, ?_⟩
  · rw [hphs, haad, hsea]
  · rw [haad, hnks]
  · rw [hsea]
    rfl
  · rw [hsea]
  · rw [hnks]
    exact hne

/-- C2 witness: a one-certificate image satisfies all the header size and
count invariants. -/
theorem claim_C2_witness :
    pv_hdr_size (pv_hdr_alloc (pv_img_set_host_slots cryptoDummy imgW)) =
      pv_hdr_aad_size (pv_hdr_alloc (pv_img_set_host_slots cryptoDummy imgW)) +
      pv_hdr_enc_size (pv_hdr_alloc (pv_img_set_host_slots cryptoDummy imgW)) +
      AES_256_GCM_TAG_SIZE ∧
    pv_hdr_aad_size (pv_hdr_alloc (pv_img_set_host_slots cryptoDummy imgW)) =
      sizeof_pv_hdr_head + sizeof_pv_hdr_key_slot *
        pv_hdr_get_nks (pv_hdr_alloc (pv_img_set_host_slots cryptoDummy imgW)) ∧
    pv_hdr_enc_size (pv_hdr_alloc (pv_img_set_host_slots cryptoDummy imgW)) %
      16 = 0 ∧
    sizeof_pv_hdr_encrypted ≤
      pv_hdr_enc_size (pv_hdr_alloc (pv_img_set_host_slots cryptoDummy imgW)) ∧
    pv_hdr_get_nks (pv_hdr_alloc (pv_img_set_host_slots cryptoDummy imgW)) =
      1 ∧
    1 ≤ pv_hdr_get_nks (pv_hdr_alloc (pv_img_set_host_slots cryptoDummy imgW)) :=
  claim_C2 cryptoDummy imgW 1 (by decide) (by decide) rfl

/-- C3: the emitted key slots follow the input host-certificate order; each
slot is the SHA-256 digest of the serialised host public key, followed by
the AES-256-GCM ciphertext of `cust_root_key` under the wrap key with a
zero IV, followed by the GCM tag, where the wrap key is the SHA-256 digest
of the 70-byte buffer holding the 66-byte ECDH shared secret followed by
`00 00 00 01`; the slot parts measure 32, 32 and 16 bytes. -/
theorem claim_C3 (ops : CryptoOps) (img : PvImage)
    (hsha : ∀ m, (ops.sha256 m).length = 32)
    (hgcm_ct : ∀ k iv aad pt, ((ops.gcm_enc k iv aad pt).1).length = pt.length)
    (hgcm_tag : ∀ k iv aad pt, ((ops.gcm_enc k iv aad pt).2).length = 16)
    (hroot : img.cust_root_key.length = 32)
    (hderive : ∀ c h, (ops.derive_key c h).length = 66) :
    (pv_img_set_host_slots ops img).key_slots =
      img.host_pub_keys.map (fun h =>
        { digest_key := ops.sha256 (ops.evp_pkey_to_ecdh_pub_key h)
          wrapped_key := (ops.gcm_enc
            (ops.sha256 (ops.derive_key img.cust_pub_priv_key h ++
              [0x00, 0x00, 0x00, 0x01]))
            (List.replicate 12 0) [] img.cust_root_key).1
          tag := (ops.gcm_enc
            (ops.sha256 (ops.derive_key img.cust_pub_priv_key h ++
              [0x00, 0x00, 0x00, 0x01]))
            (List.replicate 12 0) [] img.cust_root_key).2 }) ∧
    (∀ h, (ops.derive_key img.cust_pub_priv_key h ++
      [0x00, 0x00, 0x00, 0x01]).length = 70) ∧
    (∀ slot ∈ (pv_img_set_host_slots ops img).key_slots,
      slot.digest_key.length = 32 ∧ slot.wrapped_key.length = 32 ∧
      slot.tag.length = 16 ∧
      serializeSlot slot =
        slot.digest_key ++ slot.wrapped_key ++ slot.tag) := by
  refine ⟨rfl, ?_, ?_⟩
  · intro h
    rw [List.length_append, hderive]
    rfl
  · intro slot hs
    simp only [pv_img_set_host_slots] at hs
    obtain ⟨h, _, hslot⟩ := List.mem_map.mp hs
    subst hslot
    refine ⟨hsha _, ?_, hgcm_tag _ _ _ _, rfl⟩
    rw [pv_hdr_key_slot_new]
    show ((ops.gcm_enc _ _ _ img.cust_root_key).1).length = 32
    rw [hgcm_ct, hroot]

/-- C3 witness: the slot layout facts at a concrete image with one host
key. -/
theorem claim_C3_witness :
    (pv_img_set_host_slots cryptoDummy imgW).key_slots =
      imgW.host_pub_keys.map (fun h =>
        { digest_key :=
            cryptoDummy.sha256 (cryptoDummy.evp_pkey_to_ecdh_pub_key h)
          wrapped_key := (cryptoDummy.gcm_enc
            (cryptoDummy.sha256
              (cryptoDummy.derive_key imgW.cust_pub_priv_key h ++
                [0x00, 0x00, 0x00, 0x01]))
            (List.replicate 12 0) [] imgW.cust_root_key).1
          tag := (cryptoDummy.gcm_enc
            (cryptoDummy.sha256
              (cryptoDummy.derive_key imgW.cust_pub_priv_key h ++
                [0x00, 0x00, 0x00, 0x01]))
            (List.replicate 12 0) [] imgW.cust_root_key).2 }) ∧
    (cryptoDummy.derive_key imgW.cust_pub_priv_key 0 ++
      [0x00, 0x00, 0x00, 0x01]).length = 70 := by
  have h := claim_C3 cryptoDummy imgW
    (fun m => by simp [cryptoDummy])
    (fun k iv aad pt => by simp [cryptoDummy])
    (fun k iv aad pt => by simp [cryptoDummy])
    (by decide)
    (fun c h => by simp [cryptoDummy])
  exact ⟨h.1, h.2.1 0⟩

/-- C4: the encrypted region's PSW has the stage3b component's guest source
address as address and `PSW_MASK_EA | PSW_MASK_BA` as mask, both stored
big-endian; and building the region fails with an internal error unless the
last component of the collection is the stage3b component (in particular on
an empty collection). -/
theorem claim_C4 (img : PvImage) (hdr : PvHdr) :
    (∀ c, img.comps.comps.getLast? = some c →
      pv_component_is_stage3b c = true →
      ∃ hdr', pv_hdr_enc_init hdr img = .ok hdr' ∧
        hdr'.encrypted.psw_addr =
          be64 (pv_component_get_src_addr c % U64) ∧
        hdr'.encrypted.psw_mask = be64 (PSW_MASK_EA ||| PSW_MASK_BA)) ∧
    (img.comps.comps.getLast? = none →
      pv_hdr_enc_init hdr img = .error .internal) ∧
    (∀ c, img.comps.comps.getLast? = some c →
      pv_component_is_stage3b c = false →
      pv_hdr_enc_init hdr img = .error .internal) := by
  refine ⟨?_, ?_, ?_⟩
  · intro c hlast hs3
    unfold pv_hdr_enc_init pv_img_get_stage3b_comp
    rw [hlast]
    dsimp only
    rw [if_pos hs3]
    exact ⟨_, rfl, rfl, rfl⟩
  · intro hlast
    unfold pv_hdr_enc_init pv_img_get_stage3b_comp
    rw [hlast]
  · intro c hlast hs3
    unfold pv_hdr_enc_init pv_img_get_stage3b_comp
    rw [hlast]
    dsimp only
    rw [if_neg (by rw [hs3]; simp)]

/-- C4 witness: the concrete image whose last component is stage3b yields
the expected big-endian PSW fields. -/
theorem claim_C4_witness :
    ∃ hdr', pv_hdr_enc_init (pv_hdr_alloc imgW) imgW = .ok hdr' ∧
      hdr'.encrypted.psw_addr =
        be64 (pv_component_get_src_addr stage3bCompW % U64) ∧
      hdr'.encrypted.psw_mask = be64 (PSW_MASK_EA ||| PSW_MASK_BA) :=
  (claim_C4 imgW (pv_hdr_alloc imgW)).1 stage3bCompW (by decide) (by decide)

/-- C7: short-PSW conversion of the stage3a load PSW (mask `m`, address
`a`) fails exactly when `m AND 0x7FFFFFFF` is nonzero, bit 12 of `m` is
set, or `a ≥ 2^31`; otherwise it returns `m OR 0x0008000000000000 OR a`,
which `pv_img_write` emits big-endian at offset 0 of the output file. -/
theorem claim_C7 (m a : Nat) (hm : m < U64) (ha : a < U64) :
    ((convert_psw_to_short_psw m a = .error .internal) ↔
      (m &&& PSW_SHORT_ADDR_MASK ≠ 0 ∨ m &&& PSW_MASK_BIT_12 ≠ 0 ∨
        2 ^ 31 ≤ a)) ∧
    (m &&& PSW_SHORT_ADDR_MASK = 0 → m &&& PSW_MASK_BIT_12 = 0 →
      a < 2 ^ 31 →
      convert_psw_to_short_psw m a = .ok (m ||| PSW_MASK_BIT_12 ||| a)) ∧
    (∀ fs la img, img.stage3a_psw_mask = m → img.stage3a_psw_addr = a →
      m &&& PSW_SHORT_ADDR_MASK = 0 → m &&& PSW_MASK_BIT_12 = 0 →
      a < 2 ^ 31 →
      (pv_img_write fs la img).2.head? =
        some (0, be64 (m ||| PSW_MASK_BIT_12 ||| a))) := by
  have hbr : a &&& NOT_PSW_SHORT_ADDR_MASK = 0 ↔ a < 2 ^ 31 :=
    land_high31_eq_zero_iff ha
  have hok : m &&& PSW_SHORT_ADDR_MASK = 0 → m &&& PSW_MASK_BIT_12 = 0 →
      a < 2 ^ 31 →
      convert_psw_to_short_psw m a = .ok (m ||| PSW_MASK_BIT_12 ||| a) := by
    intro h1 h2 h3
    rw [convert_psw_to_short_psw, if_neg (by simp [h1]),
      if_neg (by simp [h2]), if_neg (by simp [hbr.mpr h3])]
  refine ⟨?_, hok, ?_⟩
  · constructor
    · intro herr
      by_contra hcon
      push_neg at hcon
      obtain ⟨h1, h2, h3⟩ := hcon
      rw [hok h1 h2 h3] at herr
      simp at herr
    · intro hd
      rw [convert_psw_to_short_psw]
      by_cases c1 : m &&& PSW_SHORT_ADDR_MASK ≠ 0
      · rw [if_pos c1]
      · rw [if_neg c1]
        by_cases c2 : m &&& PSW_MASK_BIT_12 ≠ 0
        · rw [if_pos c2]
        · rw [if_neg c2]
          have h3 : 2 ^ 31 ≤ a := by
            rcases hd with h | h | h
            · exact absurd h c1
            · exact absurd h c2
            · exact h
          rw [if_pos (by
            intro heq
            have := hbr.mp heq
            omega)]
  · intro fs la img him hia h1 h2 h3
    have hlt : m ||| PSW_MASK_BIT_12 ||| a < U64 := by
      apply Nat.or_lt_two_pow _ ha
      apply Nat.or_lt_two_pow hm
      norm_num [PSW_MASK_BIT_12]
    have hwsp : write_short_psw img.stage3a_psw_mask img.stage3a_psw_addr =
        .ok (be64 (m ||| PSW_MASK_BIT_12 ||| a)) := by
      rw [him, hia, write_short_psw, hok h1 h2 h3]
      dsimp only
      rw [Nat.mod_eq_of_lt hlt]
    unfold pv_img_write
    rw [hwsp]
    cases hsk : seek_and_write_buffer img.stage3a la with
    | mk r w =>
      cases r with
      | some e => simp
      | none => simp

/-- C7 witness: the default mask `EA|BA` with a small entry address
converts, and the writer's first emitted bytes are its big-endian short
PSW. -/
theorem claim_C7_witness :
    convert_psw_to_short_psw 0x180000000 0x10000 =
      .ok (0x180000000 ||| PSW_MASK_BIT_12 ||| 0x10000) ∧
    (pv_img_write fsEmpty 0x2000 imgW).2.head? =
      some (0, be64 (0x180000000 ||| PSW_MASK_BIT_12 ||| 0x10000)) := by
  have h := claim_C7 0x180000000 0x10000 (by norm_num [U64])
    (by norm_num [U64])
  exact ⟨h.2.1 (by decide) (by decide) (by decide),
    h.2.2 fsEmpty 0x2000 imgW rfl rfl (by decide) (by decide) (by decide)⟩

/-- C8 (amended): every serialised secure header begins with the 8-byte
big-endian magic `0x49424D5365634578` (ASCII "IBMSecEx") followed by the
4-byte big-endian version `0x00000100`. -/
theorem claim_C8 (ops : CryptoOps) (fs : String → List Nat) (img : PvImage)
    (hdr : PvHdr) (hnew : pv_hdr_new ops fs img = .ok hdr) :
    (pv_hdr_serialize ops hdr img).take 12 =
      be64 0x49424D5365634578 ++ be32 0x00000100 := by
  obtain ⟨hmag, hver, hphs, hsea, _⟩ := pv_hdr_new_head hnew
  have haad : 12 ≤ pv_hdr_aad_size hdr := by
    rw [pv_hdr_aad_size, pv_hdr_size, pv_hdr_enc_size, hphs, hsea]
    simp only [pv_img_get_pv_hdr_size, pv_img_get_aad_size,
      pv_img_get_tag_size, pv_hdr_tag_size, sizeof_pv_hdr_head,
      sizeof_pv_hdr_key_slot, AES_256_GCM_TAG_SIZE]
    omega
  rw [pv_hdr_serialize_take12 ops img hdr haad, hmag, hver]
  rfl

theorem pv_hdr_new_ok {ops : CryptoOps} {fs : String → List Nat}
    {img : PvImage} {s' : PvImgComps} {pld ald tld : List Nat} {nep : Nat}
    (hfin : pv_img_comps_finalize ops.sha512 fs img.comps =
      .ok (s', pld, ald, tld, nep))
    {stage3b : PvComponent}
    (hlast : img.comps.comps.getLast? = some stage3b)
    (hs3 : pv_component_is_stage3b stage3b = true) :
    ∃ hdr, pv_hdr_new ops fs img = .ok hdr := by
  have hcalc : pv_img_calc_pld_ald_tld_nep ops.sha512 fs img =
      .ok (pld, ald, tld, nep) := by
    rw [pv_img_calc_pld_ald_tld_nep, hfin]
  have haad : ∃ hdr1, pv_hdr_aad_init ops fs (pv_hdr_alloc img) img =
      .ok hdr1 := by
    rw [pv_hdr_aad_init, hcalc]
    exact ⟨_, rfl⟩
  obtain ⟨hdr1, haad⟩ := haad
  rw [pv_hdr_new, pv_hdr_init, haad]
  unfold pv_hdr_enc_init pv_img_get_stage3b_comp
  rw [hlast]
  dsimp only
  rw [if_pos hs3]
  exact ⟨_, rfl⟩

theorem finalize_compsW_ok :
    ∃ s' pld ald tld,
      pv_img_comps_finalize cryptoDummy.sha512 fsEmpty compsW =
        .ok (s', pld, ald, tld, s'.nep) := by
  obtain ⟨s', hf, _, _, _, _⟩ := @hashCompsFold_ok fsEmpty compsW.comps
    { compsW with finalized := true }
    (by decide)
    (by
      intro c hc path size hd
      rcases List.mem_cons.mp hc with h1 | h2
      · subst h1
        cases hd
      · cases h2)
    (by decide)
  exact ⟨s', _, _, _, by rw [pv_img_comps_finalize, hf]⟩

/-- C8 counterexample: a concretely built header's first 8 bytes are the
big-endian bytes of `0x49424D5365634578` (third byte `4D`), not those of
the claimed magic `0x49426D5365634578` (third byte `6D`). -/
theorem claim_C8_counterexample :
    ∃ hdr, pv_hdr_new cryptoDummy fsEmpty imgW = .ok hdr ∧
      (pv_hdr_serialize cryptoDummy hdr imgW).take 8 ≠
        be64 0x49426D5365634578 := by
  obtain ⟨s', pld, ald, tld, hfin⟩ := finalize_compsW_ok
  obtain ⟨hdr, hnew⟩ := @pv_hdr_new_ok cryptoDummy fsEmpty imgW s' pld ald tld
    s'.nep hfin stage3bCompW (by decide) (by decide)
  refine ⟨hdr, hnew, ?_⟩
  obtain ⟨hmag, _, hphs, hsea, _⟩ := pv_hdr_new_head hnew
  have haad : 12 ≤ pv_hdr_aad_size hdr := by
    rw [pv_hdr_aad_size, pv_hdr_size, pv_hdr_enc_size, hphs, hsea]
    simp only [pv_img_get_pv_hdr_size, pv_img_get_aad_size,
      pv_img_get_tag_size, pv_hdr_tag_size, sizeof_pv_hdr_head,
      sizeof_pv_hdr_key_slot, AES_256_GCM_TAG_SIZE]
    omega
  have h12 := pv_hdr_serialize_take12 cryptoDummy imgW hdr haad
  have h8 : (pv_hdr_serialize cryptoDummy hdr imgW).take 8 =
      be64 PV_MAGIC_VALUE := by
    have hsplit : (pv_hdr_serialize cryptoDummy hdr imgW).take 8 =
        ((pv_hdr_serialize cryptoDummy hdr imgW).take 12).take 8 := by
      rw [List.take_take]
      norm_num
    rw [hsplit, h12, hmag]
    rw [List.take_append_of_le_length
      (by rw [be64_length] : 8 ≤ (be64 PV_MAGIC_VALUE).length)]
    exact List.take_of_length_le (by rw [be64_length])
  rw [h8]
  decide

/-- C8 witness: the amended claim at the same concretely built header. -/
theorem claim_C8_witness :
    ∃ hdr, pv_hdr_new cryptoDummy fsEmpty imgW = .ok hdr ∧
      (pv_hdr_serialize cryptoDummy hdr imgW).take 12 =
        be64 0x49424D5365634578 ++ be32 0x00000100 := by
  obtain ⟨s', pld, ald, tld, hfin⟩ := finalize_compsW_ok
  obtain ⟨hdr, hnew⟩ := @pv_hdr_new_ok cryptoDummy fsEmpty imgW s' pld ald tld
    s'.nep hfin stage3bCompW (by decide) (by decide)
  exact ⟨hdr, hnew, claim_C8 cryptoDummy fsEmpty imgW hdr hnew⟩

theorem PAGE_ALIGN_mod (a : Nat) : PAGE_ALIGN a % PAGE_SIZE = 0 := by
  obtain ⟨k, hk⟩ := PAGE_SIZE_dvd_PAGE_ALIGN a
  rw [hk]
  exact Nat.mul_mod_right _ _

/-- C6 (corrected): after `pv_component_align` the stored size equals the
page alignment of the previous size (in particular it is a page multiple),
and a component whose size already is an exact page multiple is returned
unchanged; after `pv_component_align_and_encrypt` the encrypted size
equals the aligned size whenever the component is non-empty, but an empty
component — whose aligned size is 0 — is encrypted to exactly one full
page, so for it encrypted size and aligned size differ. -/
theorem claim_C6 {xts : Nat → List Nat → List Nat}
    (hxts : ∀ t p, (xts t p).length = p.length)
    (fs : String → List Nat) (out_path : String) (c : PvComponent)
    (hsz : pv_component_size c + (PAGE_SIZE - 1) < U64)
    (hfs : ∀ path size, c.data = .file path size → (fs path).length = size)
    (horig : ∀ path size, c.data = .file path size → c.orig_size = size) :
    (pv_component_size c % PAGE_SIZE = 0 →
      pv_component_align fs out_path c = .ok c) ∧
    (∃ c', pv_component_align fs out_path c = .ok c' ∧
      pv_component_size c' = PAGE_ALIGN (pv_component_size c) ∧
      pv_component_size c' % PAGE_SIZE = 0) ∧
    (∃ c'', pv_component_align_and_encrypt xts fs out_path c = .ok c'' ∧
      pv_component_size c'' =
        (if pv_component_size c = 0 then PAGE_SIZE
         else PAGE_ALIGN (pv_component_size c))) := by
  obtain ⟨ty, dat, orig, tw, src⟩ := c
  cases dat with
  | buffer buf =>
    have hsz' : buf.length + (PAGE_SIZE - 1) < U64 := hsz
    have hone : buf.length % PAGE_SIZE = 0 →
        pv_component_align fs out_path
          ⟨ty, .buffer buf, orig, tw, src⟩ = .ok ⟨ty, .buffer buf, orig, tw, src⟩ := by
      intro hal
      have hb : IS_PAGE_ALIGNED buf.length = true :=
        (IS_PAGE_ALIGNED_iff _).mpr hal
      unfold pv_component_align
      show (if IS_PAGE_ALIGNED buf.length = true then _ else _) = _
      rw [hb, if_pos rfl]
    refine ⟨hone, ?_, ?_⟩
    · by_cases hal : buf.length % PAGE_SIZE = 0
      · exact ⟨_, hone hal, (PAGE_ALIGN_of_aligned hal hsz').symm, hal⟩
      · have hb : IS_PAGE_ALIGNED buf.length = false := by
          cases h : IS_PAGE_ALIGNED buf.length
          · rfl
          · exact absurd ((IS_PAGE_ALIGNED_iff _).mp h) hal
        refine ⟨⟨ty, .buffer
            (buf ++ List.replicate (PAGE_ALIGN buf.length - buf.length) 0),
            orig, tw, src⟩, ?_, ?_, ?_⟩
        · unfold pv_component_align
          show (if IS_PAGE_ALIGNED buf.length = true then _ else _) = _
          rw [hb, if_neg (by simp)]
        · show (buf ++
              List.replicate (PAGE_ALIGN buf.length - buf.length) 0).length =
            PAGE_ALIGN buf.length
          rw [List.length_append, List.length_replicate]
          have hle : buf.length ≤ PAGE_ALIGN buf.length := PAGE_ALIGN_le hsz'
          omega
        · show (buf ++
              List.replicate (PAGE_ALIGN buf.length - buf.length) 0).length %
            PAGE_SIZE = 0
          rw [List.length_append, List.length_replicate]
          have hle : buf.length ≤ PAGE_ALIGN buf.length := PAGE_ALIGN_le hsz'
          have := PAGE_ALIGN_mod buf.length
          have hgoal : buf.length + (PAGE_ALIGN buf.length - buf.length) =
              PAGE_ALIGN buf.length := by omega
          rw [hgoal]
          exact PAGE_ALIGN_mod buf.length
    · by_cases hal : buf.length % PAGE_SIZE = 0
      · have hb : IS_PAGE_ALIGNED buf.length = true :=
          (IS_PAGE_ALIGNED_iff _).mpr hal
        refine ⟨⟨ty, .buffer (encrypt_bio xts tw buf).1, orig, tw, src⟩,
          ?_, ?_⟩
        · unfold pv_component_align_and_encrypt
          show Except.ok (⟨ty, .buffer (encrypt_bio xts tw
              (if IS_PAGE_ALIGNED buf.length = true then buf
               else buf ++
                 List.replicate (PAGE_ALIGN buf.length - buf.length) 0)).1,
            orig, tw, src⟩ : PvComponent) = _
          rw [hb, if_pos rfl]
        · show (encrypt_bio xts tw buf).1.length =
            (if buf.length = 0 then PAGE_SIZE else PAGE_ALIGN buf.length)
          obtain ⟨_, h2, _⟩ := encrypt_bio_len hxts tw buf
          rw [h2]
          by_cases hz : buf.length = 0
          · rw [if_pos hz, if_pos hz, Nat.one_mul]
          · rw [if_neg hz, if_neg hz, aligned_ceil_self hal hz,
              PAGE_ALIGN_of_aligned hal hsz']
      · have hb : IS_PAGE_ALIGNED buf.length = false := by
          cases h : IS_PAGE_ALIGNED buf.length
          · rfl
          · exact absurd ((IS_PAGE_ALIGNED_iff _).mp h) hal
        have hle : buf.length ≤ PAGE_ALIGN buf.length := PAGE_ALIGN_le hsz'
        refine ⟨⟨ty, .buffer (encrypt_bio xts tw
            (buf ++
              List.replicate (PAGE_ALIGN buf.length - buf.length) 0)).1,
          orig, tw, src⟩, ?_, ?_⟩
        · unfold pv_component_align_and_encrypt
          show Except.ok (⟨ty, .buffer (encrypt_bio xts tw
              (if IS_PAGE_ALIGNED buf.length = true then buf
               else buf ++
                 List.replicate (PAGE_ALIGN buf.length - buf.length) 0)).1,
            orig, tw, src⟩ : PvComponent) = _
          rw [hb, if_neg (by simp)]
        · show (encrypt_bio xts tw
              (buf ++
                List.replicate (PAGE_ALIGN buf.length - buf.length) 0)).1.length =
            (if buf.length = 0 then PAGE_SIZE else PAGE_ALIGN buf.length)
          obtain ⟨_, h2, _⟩ := encrypt_bio_len hxts tw
            (buf ++ List.replicate (PAGE_ALIGN buf.length - buf.length) 0)
          rw [h2, List.length_append, List.length_replicate]
          have hpad : buf.length + (PAGE_ALIGN buf.length - buf.length) =
              PAGE_ALIGN buf.length := by omega
          rw [hpad]
          have hz0 : buf.length ≠ 0 := by
            intro h
            rw [h] at hal
            exact hal (by decide)
          have hpa0 : PAGE_ALIGN buf.length ≠ 0 := by
            have := PAGE_ALIGN_pos hz0 hsz'
            simp only [PAGE_SIZE] at this ⊢
            omega
          rw [if_neg hpa0, if_neg hz0,
            aligned_ceil_self (PAGE_ALIGN_mod buf.length) hpa0]
  | file path size =>
    have hsz' : size + (PAGE_SIZE - 1) < U64 := hsz
    have hlen : (fs path).length = size := hfs path size rfl
    have horig' : orig = size := horig path size rfl
    have hone : size % PAGE_SIZE = 0 →
        pv_component_align fs out_path
          ⟨ty, .file path size, orig, tw, src⟩ =
          .ok ⟨ty, .file path size, orig, tw, src⟩ := by
      intro hal
      have hb : IS_PAGE_ALIGNED size = true := (IS_PAGE_ALIGNED_iff _).mpr hal
      unfold pv_component_align
      show (if IS_PAGE_ALIGNED size = true then _ else _) = _
      rw [hb, if_pos rfl]
    refine ⟨hone, ?_, ?_⟩
    · by_cases hal : size % PAGE_SIZE = 0
      · exact ⟨_, hone hal, (PAGE_ALIGN_of_aligned hal hsz').symm, hal⟩
      · have hb : IS_PAGE_ALIGNED size = false := by
          cases h : IS_PAGE_ALIGNED size
          · rfl
          · exact absurd ((IS_PAGE_ALIGNED_iff _).mp h) hal
        refine ⟨⟨ty, .file out_path (padFileGo (fs path)).2, orig, tw, src⟩,
          ?_, ?_, ?_⟩
        · unfold pv_component_align
          show (if IS_PAGE_ALIGNED size = true then _ else _) = _
          rw [hb, if_neg (by simp)]
        · show (padFileGo (fs path)).2 = PAGE_ALIGN size
          rw [padFileGo_spec (fs path).length (fs path) (Nat.le_refl _), hlen,
            PAGE_ALIGN_eq hsz']
          have hp : PAGE_SIZE = 4096 := rfl
          rw [hp] at hal ⊢
          omega
        · show (padFileGo (fs path)).2 % PAGE_SIZE = 0
          rw [padFileGo_spec (fs path).length (fs path) (Nat.le_refl _)]
          exact Nat.mul_mod_left _ _
    · obtain ⟨h1, h2, h3⟩ := encrypt_bio_len hxts tw (fs path)
      refine ⟨⟨ty, .file out_path (encrypt_bio xts tw (fs path)).2.2,
        orig, tw, src⟩, ?_, ?_⟩
      · unfold pv_component_align_and_encrypt
        show (if orig ≠ (encrypt_bio xts tw (fs path)).2.1 then _ else _) = _
        rw [if_neg (by rw [h1, hlen, horig']; exact fun h => h rfl)]
      · show (encrypt_bio xts tw (fs path)).2.2 =
          (if size = 0 then PAGE_SIZE else PAGE_ALIGN size)
        rw [h3, h2, hlen]
        by_cases hz : size = 0
        · rw [if_pos hz, if_pos hz, Nat.one_mul]
        · rw [if_neg hz, if_neg hz, PAGE_ALIGN_eq hsz']

/-- C6 counterexample: an empty buffer component is already page-aligned
(align is the identity and the aligned size is 0), yet align-and-encrypt
produces an encrypted size of one full page (4096 ≠ 0), refuting
"encrypted size equals aligned size" as stated. -/
theorem claim_C6_counterexample :
    pv_component_align fsEmpty "p" compEmptyBuf = .ok compEmptyBuf ∧
    pv_component_size compEmptyBuf = 0 ∧
    (∃ c'', pv_component_align_and_encrypt (fun _ p => p) fsEmpty "p"
        compEmptyBuf = .ok c'' ∧ pv_component_size c'' = PAGE_SIZE) ∧
    PAGE_SIZE ≠ 0 := by
  refine ⟨rfl, rfl, ?_, by decide⟩
  refine ⟨{ compEmptyBuf with
    data := .buffer (encrypt_bio (fun _ p => p) compEmptyBuf.tweak []).1 },
    rfl, ?_⟩
  show (encrypt_bio (fun _ p => p) compEmptyBuf.tweak []).1.length = PAGE_SIZE
  obtain ⟨_, h2, _⟩ := encrypt_bio_len (fun _ _ => rfl) compEmptyBuf.tweak []
  rw [h2]
  rw [if_pos List.length_nil, Nat.one_mul]

/-- C6 witness: the corrected statement at a concrete 3-byte buffer
component. -/
theorem claim_C6_witness :
    (pv_component_size compBufC6 % PAGE_SIZE = 0 →
      pv_component_align fsEmpty "p" compBufC6 = .ok compBufC6) ∧
    (∃ c', pv_component_align fsEmpty "p" compBufC6 = .ok c' ∧
      pv_component_size c' = PAGE_ALIGN (pv_component_size compBufC6) ∧
      pv_component_size c' % PAGE_SIZE = 0) ∧
    (∃ c'', pv_component_align_and_encrypt (fun _ p => p) fsEmpty "p"
        compBufC6 = .ok c'' ∧
      pv_component_size c'' =
        (if pv_component_size compBufC6 = 0 then PAGE_SIZE
         else PAGE_ALIGN (pv_component_size compBufC6))) := by
  exact claim_C6 (fun _ _ => rfl) fsEmpty "p" compBufC6 (by decide)
    (by intro path size h; cases h) (by intro path size h; cases h)

/-- C10: under an in-range offset, writing a file-backed component succeeds
if and only if the bytes readable from its backing file at write time equal
the size recorded during preparation; the streamed bytes are written at the
component's source address even on mismatch, the mismatch error is
`fileChanged` ("file has changed during the preparation"), and
`pv_img_write` propagates that error of the first failing component after
performing the short-PSW, stage3a and earlier component writes. -/
theorem claim_C10 (fs : String → List Nat) (c : PvComponent)
    (path : String) (size : Nat)
    (hd : c.data = .file path size)
    (hoff : pv_component_get_src_addr c ≤ LONG_MAX) :
    ((pv_component_write fs c).1 = none ↔ (fs path).length = size) ∧
    (pv_component_write fs c).2 =
      [(pv_component_get_src_addr c, fs path)] ∧
    ((fs path).length ≠ size →
      (pv_component_write fs c).1 = some PvError.fileChanged) ∧
    (∀ (saddr : Nat) (img : PvImage) (cs₁ cs₂ : List PvComponent)
       (psw_bytes : List Nat),
      img.comps.comps = cs₁ ++ c :: cs₂ →
      (∀ x ∈ cs₁, (pv_component_write fs x).1 = none) →
      (fs path).length ≠ size →
      saddr ≤ LONG_MAX →
      write_short_psw img.stage3a_psw_mask img.stage3a_psw_addr =
        .ok psw_bytes →
      pv_img_write fs saddr img =
        (some PvError.fileChanged,
          [(0, psw_bytes)] ++ [(saddr, img.stage3a)] ++
            ((cs₁.map (fun x => (pv_component_write fs x).2)).flatten ++
              [(pv_component_get_src_addr c, fs path)]))) := by
  have hw : pv_component_write fs c =
      seek_and_write_file (fs path) size (pv_component_get_src_addr c) := by
    unfold pv_component_write
    rw [hd]
  rw [hw, seek_and_write_file_spec hoff]
  have hiff : (if size = (fs path).length then (none : Option PvError)
        else some PvError.fileChanged) = none ↔ (fs path).length = size := by
    by_cases h : size = (fs path).length
    · rw [if_pos h]
      exact ⟨fun _ => h.symm, fun _ => rfl⟩
    · rw [if_neg h]
      exact ⟨fun hc => Option.noConfusion hc, fun hc => absurd hc.symm h⟩
  refine ⟨?_, rfl, ?_, ?_⟩
  · exact hiff
  · intro hne
    rw [if_neg (fun h => hne h.symm)]
  · intro saddr img cs₁ cs₂ psw_bytes himg hok hne hsa hpsw
    have hc1 : (pv_component_write fs c).1 = some PvError.fileChanged := by
      rw [hw, seek_and_write_file_spec hoff]
      exact if_neg (fun h => hne h.symm)
    have hc2 : (pv_component_write fs c).2 =
        [(pv_component_get_src_addr c, fs path)] := by
      rw [hw, seek_and_write_file_spec hoff]
    have hgo := writeCompsGo_first_error cs₁ c cs₂ PvError.fileChanged hok hc1
    rw [hc2] at hgo
    rw [pv_img_write, hpsw]
    have hbuf : seek_and_write_buffer img.stage3a saddr =
        (none, [(saddr, img.stage3a)]) := by
      rw [seek_and_write_buffer, file_seek, if_neg (by omega)]
    rw [hbuf, himg, hgo]

/-- C10 witness: a concrete image whose single component records size 2 but
whose backing file holds 1 byte; the component write fails with
`fileChanged` after writing the byte, and `pv_img_write` returns that
error with the full write trace. -/
theorem claim_C10_witness :
    ¬((pv_component_write fsC10 compFileBad).1 = none) ∧
    (pv_component_write fsC10 compFileBad).2 = [(4096, fsC10 "g")] ∧
    (pv_component_write fsC10 compFileBad).1 = some PvError.fileChanged ∧
    pv_img_write fsC10 1024 imgC10 =
      (some PvError.fileChanged,
        [(0, be64 0x8000180010000)] ++ [(1024, imgC10.stage3a)] ++
          [(4096, fsC10 "g")]) := by
  obtain ⟨h1, h2, h3, h4⟩ := claim_C10 fsC10 compFileBad "g" 2 rfl (by decide)
  have hne : (fsC10 "g").length ≠ 2 := by decide
  refine ⟨fun h => absurd (h1.mp h) hne, h2, h3 hne, ?_⟩
  have := h4 1024 imgC10 [] [] (be64 0x8000180010000) rfl
    (by intro x hx; cases hx) hne (by decide) rfl
  simpa using this

end Genprotimg
